import Mathlib

/-!
# Verification of the auditctl hash-chained audit log

A shallow embedding of the core of `auditctl` (a tamper-evident, append-only
audit log): the entry model and canonical serialization (`src/types.ts`,
`src/lib/logger.ts`), the hash-chain engine (`computeEntryHash`, `AuditLogger.log`,
`AuditLogger.logDecision`), and the file storage backend
(`FileStorage.query`, `FileStorage.verifyIntegrity`, `FileStorage.readAllEntries`).

Modelling conventions:
* JavaScript objects (`Record<string, unknown>`) are association lists in
  insertion order (`JObj`); arrays are `JArr`.
* `JSON.stringify` is modelled by `JValue.stringify`; JS numbers are modelled
  as integers (the only numeric values the claims exercise).
* SHA-256 (`crypto.createHash('sha256')`) is implemented over byte lists with
  `Nat` arithmetic mod 2^32 and checked against the standard test vector.
* `new Date(s).getTime()` is modelled by `jsTime`, which parses the strict
  ISO-8601 format `YYYY-MM-DDTHH:MM:SS.mmmZ` that the logger itself writes
  (`new Date().toISOString()`); any other string is `none`, and comparisons
  against `none` are false, mirroring `NaN` comparison semantics.
* Effects are made explicit: storage state is a `List AuditEntry`; the
  generated UUID and timestamp of `log()` are oracle parameters.
-/

set_option maxRecDepth 4000000

/-! ## JSON values (JS `Record<string, unknown>` / arrays, insertion order) -/

mutual

/-- A JSON/JS value, as stored in `inputs` / `outputs` and on JSONL lines. -/
inductive JValue where
  | str (s : String)
  | num (n : Int)
  | bool (b : Bool)
  | null
  | arr (elems : JArr)
  | obj (fields : JObj)

/-- A JSON array (spine of `JValue`s). -/
inductive JArr where
  | nil
  | cons (head : JValue) (tail : JArr)

/-- A JSON object: key/value pairs in insertion order. -/
inductive JObj where
  | nil
  | cons (key : String) (val : JValue) (tail : JObj)

end

/-- JSON string escaping as performed by `JSON.stringify`. -/
def jsonEscapeChar (c : Char) : String :=
  if c = '"' then "\\\""
  else if c = '\\' then "\\\\"
  else if c = '\n' then "\\n"
  else if c = '\r' then "\\r"
  else if c = '\t' then "\\t"
  else if c = '\x08' then "\\b"
  else if c = '\x0c' then "\\f"
  else if c.toNat < 0x20 then
    "\\u00" ++ String.mk ["0123456789abcdef".toList.getD (c.toNat / 16) '0',
                          "0123456789abcdef".toList.getD (c.toNat % 16) '0']
  else String.mk [c]

/-- Model of `JSON.stringify` applied to a string literal (quotes plus escaping). -/
def jsonQuote (s : String) : String :=
  "\"" ++ String.join (s.toList.map jsonEscapeChar) ++ "\""

mutual

/-- Model of `JSON.stringify` for a JS value (no spacing, insertion-order keys). -/
def JValue.stringify : JValue → String
  | .str s => jsonQuote s
  | .num n => toString n
  | .bool b => if b then "true" else "false"
  | .null => "null"
  | .arr es => "[" ++ JArr.stringifyElems es ++ "]"
  | .obj fs => "\x7b" ++ JObj.stringifyFields fs ++ "\x7d"

/-- Comma-separated serialization of array elements. -/
def JArr.stringifyElems : JArr → String
  | .nil => ""
  | .cons v .nil => JValue.stringify v
  | .cons v rest => JValue.stringify v ++ "," ++ JArr.stringifyElems rest

/-- Comma-separated serialization of object fields. -/
def JObj.stringifyFields : JObj → String
  | .nil => ""
  | .cons k v .nil => jsonQuote k ++ ":" ++ JValue.stringify v
  | .cons k v rest => jsonQuote k ++ ":" ++ JValue.stringify v ++ "," ++ JObj.stringifyFields rest

end

/-- Look a key up in a JS object (first occurrence, as JS property access). -/
def JObj.get : JObj → String → Option JValue
  | .nil, _ => none
  | .cons k v rest, key => if k = key then some v else JObj.get rest key

/-- JS property assignment / spread-override `{...o, key: v}`: replaces the
value in place if the key exists (keeping its position), else appends. -/
def JObj.set : JObj → String → JValue → JObj
  | .nil, key, v => .cons key v .nil
  | .cons k w rest, key, v =>
    if k = key then .cons k v rest else .cons k w (JObj.set rest key v)

/-- The keys of a JS object, in insertion order. -/
def JObj.keys : JObj → List String
  | .nil => []
  | .cons k _ rest => k :: JObj.keys rest

/-! ## SHA-256 (`crypto.createHash('sha256').update(content).digest('hex')`)

Implemented from the FIPS 180-4 specification over byte lists, with `Nat`
arithmetic reduced mod `2 ^ 32`. -/

/-- Addition modulo 2^32. -/
def add32 (a b : Nat) : Nat := (a + b) % 2 ^ 32

/-- Right rotation of a 32-bit word. -/
def rotr32 (n x : Nat) : Nat := ((x >>> n) ||| (x <<< (32 - n))) % 2 ^ 32

/-- The SHA-256 big sigma-0 function. -/
def bsig0 (x : Nat) : Nat := (rotr32 2 x) ^^^ (rotr32 13 x) ^^^ (rotr32 22 x)

/-- The SHA-256 big sigma-1 function. -/
def bsig1 (x : Nat) : Nat := (rotr32 6 x) ^^^ (rotr32 11 x) ^^^ (rotr32 25 x)

/-- The SHA-256 small sigma-0 function. -/
def ssig0 (x : Nat) : Nat := (rotr32 7 x) ^^^ (rotr32 18 x) ^^^ (x >>> 3)

/-- The SHA-256 small sigma-1 function. -/
def ssig1 (x : Nat) : Nat := (rotr32 17 x) ^^^ (rotr32 19 x) ^^^ (x >>> 10)

/-- The 64 SHA-256 round constants. -/
def sha256K : List Nat :=
  [1116352408, 1899447441, 3049323471, 3921009573, 961987163, 1508970993,
   2453635748, 2870763221, 3624381080, 310598401, 607225278, 1426881987,
   1925078388, 2162078206, 2614888103, 3248222580, 3835390401, 4022224774,
   264347078, 604807628, 770255983, 1249150122, 1555081692, 1996064986,
   2554220882, 2821834349, 2952996808, 3210313671, 3336571891, 3584528711,
   113926993, 338241895, 666307205, 773529912, 1294757372, 1396182291,
   1695183700, 1986661051, 2177026350, 2456956037, 2730485921, 2820302411,
   3259730800, 3345764771, 3516065817, 3600352804, 4094571909, 275423344,
   430227734, 506948616, 659060556, 883997877, 958139571, 1322822218,
   1537002063, 1747873779, 1955562222, 2024104815, 2227730452, 2361852424,
   2428436474, 2756734187, 3204031479, 3329325298]

/-- The eight 32-bit words of a SHA-256 state. -/
structure Hash8 where
  a : Nat
  b : Nat
  c : Nat
  d : Nat
  e : Nat
  f : Nat
  g : Nat
  h : Nat

/-- The SHA-256 initial hash value. -/
def sha256Init : Hash8 :=
  ⟨1779033703, 3144134277, 1013904242, 2773480762, 1359893119, 2600822924, 528734635, 1541459225⟩

/-- Extend a 16-word block to the 64-word message schedule (48 extension steps). -/
def extendSchedule : Nat → List Nat → List Nat
  | 0, ws => ws
  | k + 1, ws =>
    let n := ws.length
    let w := add32 (add32 (ssig1 (ws.getD (n - 2) 0)) (ws.getD (n - 7) 0))
               (add32 (ssig0 (ws.getD (n - 15) 0)) (ws.getD (n - 16) 0))
    extendSchedule k (ws ++ [w])

/-- One SHA-256 compression round, consuming a round constant and a schedule word. -/
def round256 (st : Hash8) (kw : Nat × Nat) : Hash8 :=
  let ch := (st.e &&& st.f) ^^^ ((st.e ^^^ (2 ^ 32 - 1)) &&& st.g)
  let maj := (st.a &&& st.b) ^^^ (st.a &&& st.c) ^^^ (st.b &&& st.c)
  let t1 := add32 (add32 (add32 st.h (bsig1 st.e)) (add32 ch kw.1)) kw.2
  let t2 := add32 (bsig0 st.a) maj
  ⟨add32 t1 t2, st.a, st.b, st.c, add32 st.d t1, st.e, st.f, st.g⟩

/-- Run the 64 compression rounds. -/
def roundLoop (st : Hash8) : List (Nat × Nat) → Hash8
  | [] => st
  | kw :: rest => roundLoop (round256 st kw) rest

/-- Compress one 16-word block into the running state. -/
def compress (st : Hash8) (block : List Nat) : Hash8 :=
  let ws := extendSchedule 48 block
  let r := roundLoop st (sha256K.zip ws)
  ⟨add32 st.a r.a, add32 st.b r.b, add32 st.c r.c, add32 st.d r.d,
   add32 st.e r.e, add32 st.f r.f, add32 st.g r.g, add32 st.h r.h⟩

/-- Group bytes into 4-byte big-endian words. -/
def bytesToWords : List Nat → List Nat
  | b0 :: b1 :: b2 :: b3 :: rest => (((b0 * 256 + b1) * 256 + b2) * 256 + b3) :: bytesToWords rest
  | _ => []

/-- Fold the compression function over all 64-byte blocks (fuel-indexed so that
the definition reduces inside the kernel). -/
def blocksLoop : Nat → Hash8 → List Nat → Hash8
  | 0, st, _ => st
  | _, st, [] => st
  | fuel + 1, st, bytes =>
    blocksLoop fuel (compress st (bytesToWords (bytes.take 64))) (bytes.drop 64)

/-- SHA-256 message padding: `0x80`, zeros to 56 mod 64, 8-byte bit length. -/
def sha256Pad (msg : List Nat) : List Nat :=
  let len := msg.length
  let padLen := (119 - len % 64) % 64
  let bitLen := len * 8
  msg ++ [0x80] ++ List.replicate padLen 0 ++
    [(bitLen >>> 56) % 256, (bitLen >>> 48) % 256, (bitLen >>> 40) % 256, (bitLen >>> 32) % 256,
     (bitLen >>> 24) % 256, (bitLen >>> 16) % 256, (bitLen >>> 8) % 256, bitLen % 256]

/-- Big-endian bytes of a 32-bit word. -/
def wordBytes (w : Nat) : List Nat :=
  [(w >>> 24) % 256, (w >>> 16) % 256, (w >>> 8) % 256, w % 256]

/-- SHA-256 digest (32 bytes) of a byte-list message. -/
def sha256Bytes (msg : List Nat) : List Nat :=
  let padded := sha256Pad msg
  let st := blocksLoop (padded.length / 64 + 1) sha256Init padded
  wordBytes st.a ++ wordBytes st.b ++ wordBytes st.c ++ wordBytes st.d ++
    wordBytes st.e ++ wordBytes st.f ++ wordBytes st.g ++ wordBytes st.h

/-- Lowercase hexadecimal digit for `n % 16`. -/
def hexDigit (n : Nat) : Char :=
  "0123456789abcdef".toList.getD (n % 16) '0'

/-- Two lowercase hex characters for one byte. -/
def byteHex (b : Nat) : List Char := [hexDigit (b / 16), hexDigit b]

/-- UTF-8 encoding of one character. -/
def utf8Char (c : Char) : List Nat :=
  let n := c.toNat
  if n < 0x80 then [n]
  else if n < 0x800 then [0xC0 ||| (n >>> 6), 0x80 ||| (n &&& 0x3F)]
  else if n < 0x10000 then
    [0xE0 ||| (n >>> 12), 0x80 ||| ((n >>> 6) &&& 0x3F), 0x80 ||| (n &&& 0x3F)]
  else
    [0xF0 ||| (n >>> 18), 0x80 ||| ((n >>> 12) &&& 0x3F),
     0x80 ||| ((n >>> 6) &&& 0x3F), 0x80 ||| (n &&& 0x3F)]

/-- UTF-8 encoding of a string. -/
def utf8Bytes (s : String) : List Nat := s.toList.flatMap utf8Char

/-- Hex-encoded lowercase SHA-256 digest of a string, as
`crypto.createHash('sha256').update(content).digest('hex')`. -/
def sha256Hex (s : String) : String :=
  String.mk ((sha256Bytes (utf8Bytes s)).flatMap byteHex)

example : sha256Hex "abc" =
    "ba7816bf8f01cfea414140de5dae2223b00361a396177a9cb410ff61f20015ad" := by decide

/-! ## Entry model (`src/types.ts`) -/

/-- Compliance metadata (`ComplianceInfo`, `src/types.ts` lines 8-19). -/
structure ComplianceInfo where
  regulations : List String
  riskFlags : List String
  humanReviewRequired : Bool
  checksPerformed : Option (List String)
  exemptions : Option (List String)

/-- An audit entry without its own `entryHash`
(`Omit<AuditEntry, 'entryHash'>`, the input type of `computeEntryHash`). -/
structure EntryCore where
  auditId : String
  timestamp : String
  tool : String
  command : String
  toolVersion : String
  inputs : JObj
  outputs : JObj
  rationale : String
  warnings : List String
  compliance : ComplianceInfo
  operator : String
  sessionId : Option String
  parentAuditId : Option String
  loanId : Option String
  durationMs : Option Int
  previousHash : Option String

/-- A full audit entry (`AuditEntry`, `src/types.ts` lines 24-59). -/
structure AuditEntry extends EntryCore where
  entryHash : String

/-- The rest-destructuring `const { entryHash, ...entryWithoutHash } = entry`
used by `FileStorage.verifyIntegrity`. -/
def stripHash (e : AuditEntry) : EntryCore := e.toEntryCore

/-- Prepend a key/value pair only when the value is present: `JSON.stringify`
omits keys whose value is `undefined`. -/
def JObj.consOpt (k : String) (v : Option JValue) (rest : JObj) : JObj :=
  match v with
  | none => rest
  | some v => .cons k v rest

/-- A JSON array of strings. -/
def strArrJ (l : List String) : JValue :=
  .arr (l.foldr (fun s a => .cons (.str s) a) .nil)

/-- JSON form of the compliance block, keys in the insertion order produced by
`{...defaultComplianceInfo, ...options.compliance}` in `AuditLogger.log`. -/
def complianceJson (c : ComplianceInfo) : JValue :=
  .obj (.cons "regulations" (strArrJ c.regulations)
    (.cons "riskFlags" (strArrJ c.riskFlags)
      (.cons "humanReviewRequired" (.bool c.humanReviewRequired)
        (JObj.consOpt "checksPerformed" (c.checksPerformed.map strArrJ)
          (JObj.consOpt "exemptions" (c.exemptions.map strArrJ) .nil)))))

/-- The object serialized by `computeEntryHash` (`src/lib/logger.ts` lines
27-44): the fixed, explicit field set in fixed key order, with absent optional
fields omitted exactly as `JSON.stringify` omits `undefined` values. -/
def hashInput (e : EntryCore) : JObj :=
  .cons "auditId" (.str e.auditId)
    (.cons "timestamp" (.str e.timestamp)
      (.cons "tool" (.str e.tool)
        (.cons "command" (.str e.command)
          (.cons "toolVersion" (.str e.toolVersion)
            (.cons "inputs" (.obj e.inputs)
              (.cons "outputs" (.obj e.outputs)
                (.cons "rationale" (.str e.rationale)
                  (.cons "warnings" (strArrJ e.warnings)
                    (.cons "compliance" (complianceJson e.compliance)
                      (.cons "operator" (.str e.operator)
                        (JObj.consOpt "sessionId" (e.sessionId.map .str)
                          (JObj.consOpt "parentAuditId" (e.parentAuditId.map .str)
                            (JObj.consOpt "loanId" (e.loanId.map .str)
                              (JObj.consOpt "durationMs" (e.durationMs.map .num)
                                (JObj.consOpt "previousHash" (e.previousHash.map .str)
                                  .nil)))))))))))))))

/-- The canonical text form hashed by `computeEntryHash`:
`JSON.stringify({auditId: ..., ..., previousHash: ...})`. -/
def canonicalContent (e : EntryCore) : String :=
  JValue.stringify (.obj (hashInput e))

/-- Model of `computeEntryHash` (`src/lib/logger.ts` lines 26-46): SHA-256 of the
canonical serialization, hex-encoded. -/
def computeEntryHash (e : EntryCore) : String :=
  sha256Hex (canonicalContent e)

/-! ## Input sanitization (`sanitizeInputs`, `src/lib/logger.ts` lines 52-85) -/

/-- The configured sensitive-keyword set. -/
def sensitiveKeys : List String :=
  ["ssn", "social_security", "socialSecurity", "ssn_last4", "password", "secret",
   "token", "api_key", "apiKey", "account_number", "accountNumber",
   "routing_number", "routingNumber"]

/-- ASCII lowercasing (the sensitive keys and the keys the claims exercise are
ASCII, where `String.toLowerCase` agrees with this). -/
def lowerChar (c : Char) : Char :=
  if 'A' ≤ c ∧ c ≤ 'Z' then Char.ofNat (c.toNat + 32) else c

/-- Lowercase a string, character by character. -/
def lowerStr (s : String) : String := String.mk (s.toList.map lowerChar)

/-- Does `needle` occur at the start of `hay`? -/
def startsWithL : List Char → List Char → Bool
  | _, [] => true
  | [], _ => false
  | h :: t, n :: nt => h = n && startsWithL t nt

/-- Does `needle` occur anywhere in `hay` (JS `String.includes`)? -/
def containsSub : List Char → List Char → Bool
  | [], n => n.isEmpty
  | h :: t, n => startsWithL (h :: t) n || containsSub t n

/-- The check `lowerKey.includes(sk.toLowerCase())` over the sensitive-keyword set. -/
def isSensitiveKey (k : String) : Bool :=
  sensitiveKeys.any (fun sk => containsSub (lowerStr k).toList (lowerStr sk).toList)

mutual

/-- Model of `sanitizeInputs` (`src/lib/logger.ts` lines 52-85): iterate
`Object.entries`, redact sensitive keys wholesale, recurse into object-typed
values (which includes arrays, re-entered as records with index keys). -/
def sanitizeInputs : JObj → JObj
  | .nil => .nil
  | .cons k v rest =>
    .cons k (if isSensitiveKey k then .str "[REDACTED]" else sanitizeValue v)
      (sanitizeInputs rest)

/-- The `else`-branches of the loop body: recurse when
`typeof value === 'object' && value !== null`, else keep the value. -/
def sanitizeValue : JValue → JValue
  | .obj fs => .obj (sanitizeInputs fs)
  | .arr es => .obj (sanitizeArr 0 es)
  | .str s => .str s
  | .num n => .num n
  | .bool b => .bool b
  | .null => .null

/-- Recursion of `sanitizeInputs` into an array value: `Object.entries` of a JS
array yields index keys `"0"`, `"1"`, ... so the result is a plain object. -/
def sanitizeArr : Nat → JArr → JObj
  | _, .nil => .nil
  | i, .cons v rest =>
    .cons (toString i) (if isSensitiveKey (toString i) then .str "[REDACTED]" else sanitizeValue v)
      (sanitizeArr (i + 1) rest)

end

/-! ## JS timestamps (`new Date(s).getTime()`)

Modelled for the strict ISO format `YYYY-MM-DDTHH:MM:SS.mmmZ` that the logger
writes (`new Date().toISOString()`); any other input is `none` (JS `NaN`). -/

/-- Decimal digit value of a character. -/
def digitVal (c : Char) : Option Nat :=
  if '0' ≤ c ∧ c ≤ '9' then some (c.toNat - 48) else none

/-- Days from 1970-01-01 for a civil date (Howard Hinnant's algorithm). -/
def daysFromCivil (y m d : Int) : Int :=
  let y := if m ≤ 2 then y - 1 else y
  let era := y.fdiv 400
  let yoe := y - era * 400
  let mp := (m + 9) % 12
  let doy := (153 * mp + 2).fdiv 5 + d - 1
  let doe := yoe * 365 + yoe.fdiv 4 - yoe.fdiv 100 + doy
  era * 146097 + doe - 719468

/-- Decimal digit at position `i` of the character list. -/
def digitAt (cs : List Char) (i : Nat) : Option Nat :=
  digitVal (cs.getD i ' ')

/-- Two-digit decimal number starting at position `i`. -/
def num2At (cs : List Char) (i : Nat) : Option Nat := do
  let a ← digitAt cs i
  let b ← digitAt cs (i + 1)
  some (a * 10 + b)

/-- Epoch milliseconds of a strict ISO-8601 UTC timestamp, or `none`. -/
def jsTime (s : String) : Option Int :=
  let cs := s.toList
  if cs.length = 24 ∧ cs.getD 4 ' ' = '-' ∧ cs.getD 7 ' ' = '-' ∧
      cs.getD 10 ' ' = 'T' ∧ cs.getD 13 ' ' = ':' ∧ cs.getD 16 ' ' = ':' ∧
      cs.getD 19 ' ' = '.' ∧ cs.getD 23 ' ' = 'Z' then do
    let y1 ← digitAt cs 0
    let y2 ← digitAt cs 1
    let year2 ← num2At cs 2
    let month ← num2At cs 5
    let day ← num2At cs 8
    let hour ← num2At cs 11
    let minute ← num2At cs 14
    let second ← num2At cs 17
    let f1 ← digitAt cs 20
    let ms2 ← num2At cs 21
    let year := y1 * 1000 + y2 * 100 + year2
    let ms := f1 * 100 + ms2
    if 1 ≤ month ∧ month ≤ 12 ∧ 1 ≤ day ∧ day ≤ 31 ∧
        hour ≤ 23 ∧ minute ≤ 59 ∧ second ≤ 59 then
      some (daysFromCivil year month day * 86400000 +
        (hour * 3600000 + minute * 60000 + second * 1000 + ms : Nat))
    else
      none
  else none

/-- JS `a >= b` where either side may be `NaN` (`none`): any comparison with
`NaN` is false. -/
def jsGe (a b : Option Int) : Bool :=
  match a, b with
  | some x, some y => decide (x ≥ y)
  | _, _ => false

/-- JS `a <= b` with the same `NaN` semantics. -/
def jsLe (a b : Option Int) : Bool :=
  match a, b with
  | some x, some y => decide (x ≤ y)
  | _, _ => false

example : jsTime "2024-01-02T00:00:00.000Z" = some 1704153600000 := by decide
example : jsTime "1969-12-31T23:59:59.999Z" = some (-1) := by decide
example : jsTime "not-a-date" = none := by decide

/-! ## Storage result types (`src/types.ts` lines 83-151) -/

/-- Query options (`AuditQueryOptions`). -/
structure AuditQueryOptions where
  loanId : Option String
  tool : Option String
  command : Option String
  operator : Option String
  sessionId : Option String
  startDate : Option String
  endDate : Option String
  hasRiskFlags : Option Bool
  humanReviewRequired : Option Bool
  limit : Option Nat
  offset : Option Nat

/-- One integrity failure record (`IntegrityFailure`). -/
structure IntegrityFailure where
  auditId : String
  timestamp : String
  reason : String
  expectedHash : Option String
  actualHash : Option String
deriving DecidableEq

/-- Result of a verification run (`IntegrityResult`). -/
structure IntegrityResult where
  valid : Bool
  entriesChecked : Nat
  validEntries : Nat
  invalidEntries : Nat
  failures : List IntegrityFailure
deriving DecidableEq

/-- A JS string option used as an `if (x)` guard: truthy iff present and
non-empty. -/
def strTruthy (o : Option String) : Bool :=
  match o with
  | some s => decide (s ≠ "")
  | none => false

/-- An entirely blank entry, used only as the (never reached) default of
in-bounds list indexing. -/
def dummyEntry : AuditEntry :=
  ⟨⟨"", "", "", "", "", .nil, .nil, "", [], ⟨[], [], false, none, none⟩,
    "", none, none, none, none, none⟩, ""⟩

namespace FileStorage

/-! The file backend (`src/lib/storage/file.ts`, provided as
`src/unnamed/part_000`). Its state — the parsed JSONL file content — is made
explicit as the `entries : List AuditEntry` parameter. -/

/-- Model of `FileStorage.query` (lines 60-105): conditionally chained `filter` passes,
then `slice(offset, offset + limit)` pagination. -/
def query (entries : List AuditEntry) (options : AuditQueryOptions) : List AuditEntry :=
  let filtered := entries
  let filtered := if strTruthy options.loanId then
    filtered.filter (fun e => e.loanId == options.loanId) else filtered
  let filtered := if strTruthy options.tool then
    filtered.filter (fun e => some e.tool == options.tool) else filtered
  let filtered := if strTruthy options.command then
    filtered.filter (fun e => some e.command == options.command) else filtered
  let filtered := if strTruthy options.operator then
    filtered.filter (fun e => some e.operator == options.operator) else filtered
  let filtered := if strTruthy options.sessionId then
    filtered.filter (fun e => e.sessionId == options.sessionId) else filtered
  let filtered := match options.startDate with
    | some sd => if sd ≠ "" then
        filtered.filter (fun (e : AuditEntry) => jsGe (jsTime e.timestamp) (jsTime sd))
      else filtered
    | none => filtered
  let filtered := match options.endDate with
    | some ed => if ed ≠ "" then
        filtered.filter (fun (e : AuditEntry) => jsLe (jsTime e.timestamp) (jsTime ed))
      else filtered
    | none => filtered
  let filtered := if options.hasRiskFlags == some true then
    filtered.filter (fun e => decide (e.compliance.riskFlags.length > 0)) else filtered
  let filtered := if options.humanReviewRequired ≠ none then
    filtered.filter (fun e => some e.compliance.humanReviewRequired == options.humanReviewRequired)
    else filtered
  let offset := options.offset.getD 0
  let limit := match options.limit with
    | none => filtered.length
    | some 0 => filtered.length
    | some l => l
  (filtered.drop offset).take limit

/-- Model of `FileStorage.getById` (lines 110-113). -/
def getById (entries : List AuditEntry) (auditId : String) : Option AuditEntry :=
  entries.find? (fun e => e.auditId == auditId)

/-- Model of `FileStorage.getLastEntry` (lines 118-121). -/
def getLastEntry (entries : List AuditEntry) : Option AuditEntry :=
  entries.getLast?

/-- The date filter of `verifyIntegrity` (lines 131-138), keeping each checked
entry's position in the full list (`entries.indexOf(entry)` identifies exactly
that position, since every parsed entry is a distinct JS object). -/
def toCheck (entries : List AuditEntry) (fromDate : Option String) : List (Nat × AuditEntry) :=
  match fromDate with
  | some fd =>
    if fd = "" then entries.enum
    else entries.enum.filter (fun p => jsGe (jsTime p.2.timestamp) (jsTime fd))
  | none => entries.enum

/-- The body of the verification loop (lines 140-174): at most one failure per
checked entry — a previous-hash mismatch short-circuits (`continue`) before the
entry's own content hash is recomputed. -/
def checkOne (entries : List AuditEntry) (p : Nat × AuditEntry) : Option IntegrityFailure :=
  let entryIndex := p.1
  let entry := p.2
  if 0 < entryIndex ∧
      entry.previousHash ≠ some (entries.getD (entryIndex - 1) dummyEntry).entryHash then
    some ⟨entry.auditId, entry.timestamp, "Previous hash mismatch",
      some (entries.getD (entryIndex - 1) dummyEntry).entryHash, entry.previousHash⟩
  else
    let computedHash := computeEntryHash (stripHash entry)
    if computedHash ≠ entry.entryHash then
      some ⟨entry.auditId, entry.timestamp, "Entry hash mismatch - possible tampering",
        some entry.entryHash, some computedHash⟩
    else
      none

/-- The verification loop: accumulates pushed failures in order and counts the
entries that pass both checks. -/
def verifyLoop (entries : List AuditEntry) :
    List (Nat × AuditEntry) → List IntegrityFailure → Nat → List IntegrityFailure × Nat
  | [], failures, validEntries => (failures, validEntries)
  | p :: rest, failures, validEntries =>
    match checkOne entries p with
    | some f => verifyLoop entries rest (failures ++ [f]) validEntries
    | none => verifyLoop entries rest failures (validEntries + 1)

/-- Model of `FileStorage.verifyIntegrity` (lines 126-183). -/
def verifyIntegrity (entries : List AuditEntry) (fromDate : Option String) : IntegrityResult :=
  let tc := toCheck entries fromDate
  let r := verifyLoop entries tc [] 0
  ⟨r.1.length == 0, tc.length, r.2, r.1.length, r.1⟩

end FileStorage

/-! ## Reading the JSONL file (`FileStorage.readAllEntries`, lines 200-224)

`JSON.parse` is modelled by a JSON parser over the standard grammar, with
number literals restricted to (signed) integers — the only numeric form the
development exercises. -/

/-- JSON insignificant whitespace. -/
def isJsonWs (c : Char) : Bool :=
  c = ' ' || c = '\t' || c = '\n' || c = '\r'

/-- Drop leading JSON whitespace. -/
def skipWs : List Char → List Char
  | [] => []
  | c :: rest => if isJsonWs c then skipWs rest else c :: rest

/-- Hexadecimal digit value. -/
def hexVal (c : Char) : Option Nat :=
  if '0' ≤ c ∧ c ≤ '9' then some (c.toNat - 48)
  else if 'a' ≤ c ∧ c ≤ 'f' then some (c.toNat - 87)
  else if 'A' ≤ c ∧ c ≤ 'F' then some (c.toNat - 55)
  else none

/-- Parse the remainder of a JSON string literal (after the opening quote). -/
def parseStrChars : List Char → Option (List Char × List Char)
  | [] => none
  | '"' :: rest => some ([], rest)
  | '\\' :: 'u' :: a :: b :: c :: d :: rest => do
    let a ← hexVal a
    let b ← hexVal b
    let c ← hexVal c
    let d ← hexVal d
    let (cs, rest') ← parseStrChars rest
    some (Char.ofNat (((a * 16 + b) * 16 + c) * 16 + d) :: cs, rest')
  | '\\' :: e :: rest => do
    let c ← match e with
      | '"' => some '"'
      | '\\' => some '\\'
      | '/' => some '/'
      | 'b' => some '\x08'
      | 'f' => some '\x0c'
      | 'n' => some '\n'
      | 'r' => some '\r'
      | 't' => some '\t'
      | _ => none
    let (cs, rest') ← parseStrChars rest
    some (c :: cs, rest')
  | c :: rest =>
    if c.toNat < 0x20 then none
    else do
      let (cs, rest') ← parseStrChars rest
      some (c :: cs, rest')

/-- Parse a run of decimal digits. -/
def parseDigits : List Char → Option (Nat × List Char)
  | c :: rest =>
    match digitVal c with
    | some d =>
      match parseDigits rest with
      | some (n, rest') => some (d * 10 ^ (rest.length - rest'.length) + n, rest')
      | none => some (d, rest)
    | none => none
  | [] => none

/-- A parsing task: a full value, the items of an array after `[`, or the
members of an object after `{` (both known non-empty). -/
inductive PTask where
  | val
  | arrItems
  | objItems

/-- A parsing result. -/
inductive POut where
  | v (value : JValue)
  | items (elems : JArr)
  | fields (members : JObj)

/-- The recursive JSON grammar, fuel-indexed. -/
def parseRun : Nat → PTask → List Char → Option (POut × List Char)
  | 0, _, _ => none
  | fuel + 1, .val, cs =>
    match skipWs cs with
    | '"' :: rest => do
      let (cs', rest') ← parseStrChars rest
      some (.v (.str (String.mk cs')), rest')
    | 't' :: 'r' :: 'u' :: 'e' :: rest => some (.v (.bool true), rest)
    | 'f' :: 'a' :: 'l' :: 's' :: 'e' :: rest => some (.v (.bool false), rest)
    | 'n' :: 'u' :: 'l' :: 'l' :: rest => some (.v .null, rest)
    | '[' :: rest =>
      (match skipWs rest with
      | ']' :: rest' => some (.v (.arr .nil), rest')
      | inner => do
        let (out, rest') ← parseRun fuel .arrItems inner
        match out with
        | .items es => some (.v (.arr es), rest')
        | _ => none)
    | '\x7b' :: rest =>
      (match skipWs rest with
      | '\x7d' :: rest' => some (.v (.obj .nil), rest')
      | inner => do
        let (out, rest') ← parseRun fuel .objItems inner
        match out with
        | .fields fs => some (.v (.obj fs), rest')
        | _ => none)
    | '-' :: rest => do
      let (n, rest') ← parseDigits rest
      some (.v (.num (-(n : Int))), rest')
    | cs' => do
      let (n, rest') ← parseDigits cs'
      some (.v (.num (n : Int)), rest')
  | fuel + 1, .arrItems, cs => do
    let (out, rest) ← parseRun fuel .val cs
    match out with
    | .v v =>
      (match skipWs rest with
      | ',' :: rest' => do
        let (out', rest'') ← parseRun fuel .arrItems rest'
        match out' with
        | .items es => some (.items (.cons v es), rest'')
        | _ => none
      | ']' :: rest' => some (.items (.cons v .nil), rest')
      | _ => none)
    | _ => none
  | fuel + 1, .objItems, cs =>
    match skipWs cs with
    | '"' :: rest => do
      let (kcs, rest') ← parseStrChars rest
      match skipWs rest' with
      | ':' :: rest'' => do
        let (out, rest3) ← parseRun fuel .val rest''
        match out with
        | .v v =>
          (match skipWs rest3 with
          | ',' :: rest4 => do
            let (out', rest5) ← parseRun fuel .objItems rest4
            match out' with
            | .fields fs => some (.fields (.cons (String.mk kcs) v fs), rest5)
            | _ => none
          | '\x7d' :: rest4 => some (.fields (.cons (String.mk kcs) v .nil), rest4)
          | _ => none)
        | _ => none
      | _ => none
    | _ => none

/-- Model of `JSON.parse`: a complete JSON value with only whitespace around it. -/
def jsonParse (s : String) : Option JValue := do
  let (out, rest) ← parseRun (2 * s.length + 4) .val s.toList
  match out with
  | .v v => if (skipWs rest).isEmpty then some v else none
  | _ => none

/-- The guard `line.trim()`: truthy iff the line has a non-whitespace
character. -/
def lineNonBlank (s : String) : Bool :=
  s.toList.any (fun c => !isJsonWs c)

/-- Model of `FileStorage.readAllEntries` (lines 200-224): parse the file line by line;
blank lines are ignored and a line that fails `JSON.parse` is skipped with a
warning (`console.error`) instead of aborting the read. -/
def readAllEntries : List String → List JValue
  | [] => []
  | line :: rest =>
    if lineNonBlank line then
      match jsonParse line with
      | some v => v :: readAllEntries rest
      | none => readAllEntries rest
    else
      readAllEntries rest

example : jsonParse "\x7b\"a\":[1,-2,true],\"b\":null\x7d" =
    some (.obj (.cons "a" (.arr (.cons (.num 1) (.cons (.num (-2)) (.cons (.bool true) .nil))))
      (.cons "b" .null .nil))) := by rfl
example : jsonParse "\x7b\"a\":1" = none := by rfl
example : jsonParse " \"x\\n\" " = some (.str "x\n") := by rfl

/-! ## The audit logger (`AuditLogger`, `src/lib/logger.ts` lines 90-233)

Storage state (`List AuditEntry`) is passed explicitly; the generated UUID and
`new Date().toISOString()` timestamp are oracle parameters of `log`. -/

/-- Caller-supplied `Partial<ComplianceInfo>` compliance fields. -/
structure ComplianceOptions where
  regulations : Option (List String)
  riskFlags : Option (List String)
  humanReviewRequired : Option Bool
  checksPerformed : Option (List String)
  exemptions : Option (List String)

/-- Options record `AuditEntryOptions` (`src/types.ts` lines 64-78). -/
structure AuditEntryOptions where
  tool : String
  command : String
  toolVersion : String
  inputs : JObj
  outputs : JObj
  rationale : String
  warnings : Option (List String)
  compliance : Option ComplianceOptions
  operator : Option String
  sessionId : Option String
  parentAuditId : Option String
  loanId : Option String
  durationMs : Option Int

/-- The logger's configuration state (its two private fields). -/
structure AuditLogger where
  defaultOperator : String
  sessionId : Option String

/-- JS `a || b` for an optional string: the empty string is falsy. -/
def strOr (o : Option String) (d : String) : String :=
  match o with
  | some s => if s = "" then d else s
  | none => d

/-- JS `a || b` where both sides are optional strings. -/
def strOrOpt (o d : Option String) : Option String :=
  match o with
  | some s => if s = "" then d else some s
  | none => d

/-- The `AuditLogger` constructor (lines 95-102):
`defaultOperator = options?.defaultOperator || 'system'`. -/
def mkAuditLogger (defaultOperator : Option String) (sessionId : Option String) : AuditLogger :=
  ⟨strOr defaultOperator "system", sessionId⟩

/-- The merge `{...defaultComplianceInfo, ...options.compliance}` (lines 123-126): the
default block `{regulations: [], riskFlags: [], humanReviewRequired: false}`
overridden per-field by caller-supplied compliance fields. -/
def mergeCompliance (o : Option ComplianceOptions) : ComplianceInfo :=
  match o with
  | none => ⟨[], [], false, none, none⟩
  | some c =>
    ⟨c.regulations.getD [], c.riskFlags.getD [], c.humanReviewRequired.getD false,
     c.checksPerformed, c.exemptions⟩

namespace AuditLogger

/-- The entry built by `log` before hashing (lines 113-133). -/
def buildEntry (lg : AuditLogger) (options : AuditEntryOptions)
    (genId genTs : String) (previousHash : Option String) : EntryCore where
  auditId := genId
  timestamp := genTs
  tool := options.tool
  command := options.command
  toolVersion := options.toolVersion
  inputs := sanitizeInputs options.inputs
  outputs := options.outputs
  rationale := options.rationale
  warnings := options.warnings.getD []
  compliance := mergeCompliance options.compliance
  operator := strOr options.operator lg.defaultOperator
  sessionId := strOrOpt options.sessionId lg.sessionId
  parentAuditId := options.parentAuditId
  loanId := options.loanId
  durationMs := options.durationMs
  previousHash := previousHash

/-- Model of `AuditLogger.log` (lines 107-148): read the last stored entry's hash,
build, hash, append; returns the new entry and the new storage state. -/
def log (lg : AuditLogger) (storage : List AuditEntry) (options : AuditEntryOptions)
    (genId genTs : String) : AuditEntry × List AuditEntry :=
  let lastEntry := FileStorage.getLastEntry storage
  let previousHash := lastEntry.map (fun e => e.entryHash)
  let entryWithoutHash := buildEntry lg options genId genTs previousHash
  let entryHash := computeEntryHash entryWithoutHash
  let entry : AuditEntry := ⟨entryWithoutHash, entryHash⟩
  (entry, storage ++ [entry])

/-- Model of `AuditLogger.logDecision` (lines 153-187): inject the decision into the
outputs, force adverse-action reasons on declines, extend the regulations with
ECOA / Reg B, and force human review for declines. -/
def logDecision (lg : AuditLogger) (storage : List AuditEntry) (options : AuditEntryOptions)
    (decision : String) (declineReasons : Option (List String))
    (genId genTs : String) : AuditEntry × List AuditEntry :=
  let outputs := JObj.set options.outputs "decision" (.str decision)
  let outputs := if decision = "declined" then
      JObj.set outputs "adverseActionReasons" (strArrJ (declineReasons.getD ["Unspecified reason"]))
    else outputs
  let compliance : ComplianceOptions :=
    { regulations :=
        some (((options.compliance.bind (fun c => c.regulations)).getD []) ++ ["ECOA", "Reg B"])
      riskFlags := options.compliance.bind (fun c => c.riskFlags)
      humanReviewRequired :=
        some ((decision == "declined") ||
          (options.compliance.bind (fun c => c.humanReviewRequired)).getD false)
      checksPerformed := options.compliance.bind (fun c => c.checksPerformed)
      exemptions := options.compliance.bind (fun c => c.exemptions) }
  log lg storage { options with outputs := outputs, compliance := some compliance } genId genTs

end AuditLogger

/-- One `log()` call: its options plus the UUID and timestamp generated during
the call. -/
structure LogCall where
  options : AuditEntryOptions
  genId : String
  genTs : String

/-- A sequence of `log()` calls against one storage instance (single writer). -/
def runLog (lg : AuditLogger) : List LogCall → List AuditEntry → List AuditEntry
  | [], storage => storage
  | c :: rest, storage => runLog lg rest (AuditLogger.log lg storage c.options c.genId c.genTs).2

/-! ## Specification-side predicates -/

/-- A fully valid stored chain, as `verifyIntegrity` would judge it with no
date filter: every non-first entry links to its predecessor's `entryHash`, and
every entry's stored `entryHash` matches its recomputed content hash. -/
def chainValid (entries : List AuditEntry) : Bool :=
  entries.enum.all (fun p =>
    (decide (p.1 = 0) ||
      decide (p.2.previousHash = some (entries.getD (p.1 - 1) dummyEntry).entryHash)) &&
    (computeEntryHash (stripHash p.2) == p.2.entryHash))

/-- Each successive entry's `previousHash` is its predecessor's `entryHash`. -/
def linkedAfter (prev : AuditEntry) : List AuditEntry → Bool
  | [] => true
  | e :: rest => (e.previousHash == some prev.entryHash) && linkedAfter e rest

/-- The chain-linkage invariant of §8: the first entry has no `previousHash`,
and entry *k*'s `previousHash` equals entry *k-1*'s `entryHash` for k ≥ 2. -/
def chainLinked : List AuditEntry → Bool
  | [] => true
  | e :: rest => (e.previousHash == none) && linkedAfter e rest

/-! ## Concrete entries used by witnesses and counterexamples

The `entryHash` fields of `entryA` / `entryB` are the actual SHA-256 digests of
their canonical serializations (checked below by `chainValid_pair`). -/

/-- A first stored entry with its genuine content hash. -/
def entryA : AuditEntry :=
  ⟨⟨"a1", "2024-01-01T00:00:00.000Z", "finctl", "c1", "1", .nil, .nil, "r", [],
    ⟨[], [], false, none, none⟩, "system", none, none, none, none, none⟩,
   "be396bca4b29c726264e41a52ff1ab5b56757bcdfac8bd4d6ce791eb32e1f365"⟩

/-- A second stored entry, chained to `entryA`, with its genuine content hash. -/
def entryB : AuditEntry :=
  ⟨⟨"a2", "2024-02-01T00:00:00.000Z", "decctl", "c2", "1", .nil, .nil, "r", [],
    ⟨[], [], false, none, none⟩, "system", none, none, none, none,
    some "be396bca4b29c726264e41a52ff1ab5b56757bcdfac8bd4d6ce791eb32e1f365"⟩,
   "a0b009ffe7a7c950a3864375d66a9da2f990e4b7e12f4a59b47c918cc157929b"⟩

/-- The two concrete entries form a valid chain. -/
theorem chainValid_pair : chainValid [entryA, entryB] = true := by decide

/-! ## Characterizing the verification loop -/

namespace FileStorage

theorem verifyLoop_spec (entries : List AuditEntry) :
    ∀ (l : List (Nat × AuditEntry)) (fs : List IntegrityFailure) (v : Nat),
    verifyLoop entries l fs v =
      (fs ++ l.filterMap (checkOne entries),
       v + l.countP (fun p => (checkOne entries p).isNone))
  | [], fs, v => by simp [verifyLoop]
  | p :: rest, fs, v => by
    rw [verifyLoop]
    cases h : checkOne entries p with
    | some f =>
      dsimp only
      rw [verifyLoop_spec entries rest (fs ++ [f]) v]
      simp [List.filterMap_cons, h, List.countP_cons]
    | none =>
      dsimp only
      rw [verifyLoop_spec entries rest fs (v + 1)]
      simp [List.filterMap_cons, h, List.countP_cons, Nat.add_comm, Nat.add_assoc,
        Nat.add_left_comm]

theorem verifyIntegrity_failures (entries : List AuditEntry) (fd : Option String) :
    (verifyIntegrity entries fd).failures =
      (toCheck entries fd).filterMap (checkOne entries) := by
  simp [verifyIntegrity, verifyLoop_spec]

theorem verifyIntegrity_entriesChecked (entries : List AuditEntry) (fd : Option String) :
    (verifyIntegrity entries fd).entriesChecked = (toCheck entries fd).length := rfl

theorem verifyIntegrity_validEntries (entries : List AuditEntry) (fd : Option String) :
    (verifyIntegrity entries fd).validEntries =
      (toCheck entries fd).countP (fun p => (checkOne entries p).isNone) := by
  simp [verifyIntegrity, verifyLoop_spec]

theorem verifyIntegrity_invalidEntries (entries : List AuditEntry) (fd : Option String) :
    (verifyIntegrity entries fd).invalidEntries =
      ((toCheck entries fd).filterMap (checkOne entries)).length := by
  simp [verifyIntegrity, verifyLoop_spec]

theorem verifyIntegrity_valid (entries : List AuditEntry) (fd : Option String) :
    (verifyIntegrity entries fd).valid =
      (((toCheck entries fd).filterMap (checkOne entries)).length == 0) := by
  simp [verifyIntegrity, verifyLoop_spec]

end FileStorage

/-- Each element of a `filterMap` counts one `isSome` of the function. -/
theorem length_filterMap_eq_countP {α β : Type} (g : α → Option β) :
    ∀ l : List α, (l.filterMap g).length = l.countP (fun a => (g a).isSome)
  | [] => rfl
  | a :: rest => by
    cases h : g a with
    | some b =>
      simp [List.filterMap_cons, h, List.countP_cons, length_filterMap_eq_countP g rest]
    | none =>
      simp [List.filterMap_cons, h, List.countP_cons, length_filterMap_eq_countP g rest]

/-- Every element is counted either as `none` or as `some`. -/
theorem countP_isNone_add_isSome {α β : Type} (g : α → Option β) :
    ∀ l : List α,
    l.countP (fun a => (g a).isNone) + l.countP (fun a => (g a).isSome) = l.length
  | [] => rfl
  | a :: rest => by
    cases h : g a with
    | some b =>
      simp [List.countP_cons, h, ← countP_isNone_add_isSome g rest]
      omega
    | none =>
      simp [List.countP_cons, h, ← countP_isNone_add_isSome g rest]
      omega

/-- Length of a `filter` over enumerated pairs that only looks at the values. -/
theorem length_filter_enumFrom {α : Type} (q : α → Bool) :
    ∀ (l : List α) (n : Nat),
    ((List.enumFrom n l).filter (fun p => q p.2)).length = (l.filter q).length
  | [], _ => rfl
  | a :: rest, n => by
    cases h : q a with
    | true => simp [List.enumFrom, List.filter, h, length_filter_enumFrom q rest (n + 1)]
    | false => simp [List.enumFrom, List.filter, h, length_filter_enumFrom q rest (n + 1)]

/-! ## Case analysis of the loop body -/

namespace FileStorage

theorem checkOne_prevMismatch (entries : List AuditEntry) (i : Nat) (e : AuditEntry)
    (hi : 0 < i)
    (hne : e.previousHash ≠ some (entries.getD (i - 1) dummyEntry).entryHash) :
    checkOne entries (i, e) = some ⟨e.auditId, e.timestamp, "Previous hash mismatch",
      some (entries.getD (i - 1) dummyEntry).entryHash, e.previousHash⟩ := by
  unfold checkOne
  rw [if_pos ⟨hi, hne⟩]

theorem checkOne_hashMismatch (entries : List AuditEntry) (i : Nat) (e : AuditEntry)
    (hprev : i = 0 ∨ e.previousHash = some (entries.getD (i - 1) dummyEntry).entryHash)
    (hne : computeEntryHash (stripHash e) ≠ e.entryHash) :
    checkOne entries (i, e) = some ⟨e.auditId, e.timestamp,
      "Entry hash mismatch - possible tampering",
      some e.entryHash, some (computeEntryHash (stripHash e))⟩ := by
  unfold checkOne
  rw [if_neg, if_pos hne]
  rcases hprev with h0 | hp
  · exact fun hc => absurd h0 (Nat.pos_iff_ne_zero.mp hc.1)
  · exact fun hc => hc.2 hp

theorem checkOne_none (entries : List AuditEntry) (i : Nat) (e : AuditEntry)
    (hprev : i = 0 ∨ e.previousHash = some (entries.getD (i - 1) dummyEntry).entryHash)
    (heq : computeEntryHash (stripHash e) = e.entryHash) :
    checkOne entries (i, e) = none := by
  unfold checkOne
  rw [if_neg, if_neg (fun hc => hc heq)]
  rcases hprev with h0 | hp
  · exact fun hc => absurd h0 (Nat.pos_iff_ne_zero.mp hc.1)
  · exact fun hc => hc.2 hp

end FileStorage

/-! ## Positions and enumeration -/

theorem listGetD_eq {α : Type} : ∀ (l : List α) (n : Nat) (d : α),
    l.getD n d = (l.get? n).getD d
  | [], 0, _ => rfl
  | [], _ + 1, _ => rfl
  | _ :: _, 0, _ => rfl
  | _ :: t, n + 1, d => listGetD_eq t n d

theorem mem_enumFrom_get? {α : Type} :
    ∀ (l : List α) (n : Nat) (p : Nat × α), p ∈ List.enumFrom n l →
      n ≤ p.1 ∧ l.get? (p.1 - n) = some p.2
  | [], _, p => by intro hp; simp [List.enumFrom] at hp
  | a :: t, n, p => by
    intro hp
    rcases List.mem_cons.mp hp with h | h
    · subst h
      exact ⟨Nat.le_refl n, by simp⟩
    · obtain ⟨h1, h2⟩ := mem_enumFrom_get? t (n + 1) p h
      refine ⟨Nat.le_of_succ_le h1, ?_⟩
      have : p.1 - n = (p.1 - (n + 1)) + 1 := by omega
      rw [this]
      simpa using h2

theorem get?_mem_enumFrom {α : Type} :
    ∀ (l : List α) (n i : Nat) (x : α), l.get? i = some x →
      (n + i, x) ∈ List.enumFrom n l
  | [], _, i, x => by intro h; simp at h
  | a :: t, n, 0, x => by
    intro h
    simp at h
    simp [List.enumFrom, h]
  | a :: t, n, i + 1, x => by
    intro h
    have := get?_mem_enumFrom t (n + 1) i x (by simpa using h)
    have harith : n + (i + 1) = (n + 1) + i := by omega
    rw [harith]
    exact List.mem_cons_of_mem _ this

/-- Unpack `chainValid` positionally: every non-first entry links to its
predecessor, and every entry's stored hash is its recomputed content hash. -/
theorem chainValid_spec (entries : List AuditEntry) (h : chainValid entries = true) :
    ∀ (i : Nat) (x : AuditEntry), entries.get? i = some x →
      (i = 0 ∨ x.previousHash = some (entries.getD (i - 1) dummyEntry).entryHash) ∧
      computeEntryHash (stripHash x) = x.entryHash := by
  intro i x hget
  have hmem : (i, x) ∈ List.enumFrom 0 entries := by
    have := get?_mem_enumFrom entries 0 i x hget
    simpa using this
  have hall := List.all_eq_true.mp h (i, x) hmem
  rw [Bool.and_eq_true] at hall
  obtain ⟨hlink, hhash⟩ := hall
  refine ⟨?_, eq_of_beq hhash⟩
  rw [Bool.or_eq_true] at hlink
  rcases hlink with h0 | hp
  · exact Or.inl (of_decide_eq_true h0)
  · exact Or.inr (of_decide_eq_true hp)

theorem get?_append_lt {α : Type} :
    ∀ (l₁ l₂ : List α) (n : Nat), n < l₁.length → (l₁ ++ l₂).get? n = l₁.get? n
  | [], _, n, h => absurd h (by simp)
  | _ :: _, _, 0, _ => rfl
  | _ :: t, l₂, n + 1, h => get?_append_lt t l₂ n (by simpa using h)

theorem get?_append_ge {α : Type} :
    ∀ (l₁ l₂ : List α) (n : Nat), l₁.length ≤ n →
      (l₁ ++ l₂).get? n = l₂.get? (n - l₁.length)
  | [], _, n, _ => by simp
  | a :: t, _, 0, h => absurd h (by simp)
  | a :: t, l₂, n + 1, h => by simpa using get?_append_ge t l₂ n (by simpa using h)

theorem get?_some_lt {α : Type} :
    ∀ (l : List α) (n : Nat) (x : α), l.get? n = some x → n < l.length
  | [], n, x => by intro h; simp at h
  | a :: t, 0, x => by intro _; simp
  | a :: t, n + 1, x => by
    intro h
    have := get?_some_lt t n x (by simpa using h)
    simpa using Nat.succ_lt_succ this

theorem enumFrom_append' {α : Type} :
    ∀ (l₁ l₂ : List α) (n : Nat),
      List.enumFrom n (l₁ ++ l₂) =
        List.enumFrom n l₁ ++ List.enumFrom (n + l₁.length) l₂
  | [], l₂, n => by simp [List.enumFrom]
  | a :: t, l₂, n => by
    simp only [List.cons_append, List.enumFrom, List.length_cons]
    show (n, a) :: List.enumFrom (n + 1) (t ++ l₂) = _
    rw [enumFrom_append' t l₂ (n + 1)]
    have h : n + (t.length + 1) = n + 1 + t.length := by omega
    rw [h]

theorem length_enumFrom' {α : Type} :
    ∀ (l : List α) (n : Nat), (List.enumFrom n l).length = l.length
  | [], _ => rfl
  | _ :: t, n => by simp [List.enumFrom, length_enumFrom' t (n + 1)]

/-- A block of checked positions on which the loop body reports nothing
contributes no failures and counts all its entries valid. -/
theorem filterMap_checkOne_nil (B : List AuditEntry) (l : List (Nat × AuditEntry))
    (h : ∀ p ∈ l, FileStorage.checkOne B p = none) :
    l.filterMap (FileStorage.checkOne B) = [] ∧
      l.countP (fun p => (FileStorage.checkOne B p).isNone) = l.length := by
  constructor
  · exact List.filterMap_eq_nil.mpr h
  · apply List.countP_eq_length.mpr
    intro p hp
    rw [h p hp]
    rfl

/-- Entries strictly before a mutated position pass both checks: their own
content is unchanged and so is their predecessor. -/
theorem pre_region (pre restA restB : List AuditEntry)
    (hcv : chainValid (pre ++ restA) = true) :
    ∀ p ∈ List.enumFrom 0 pre, FileStorage.checkOne (pre ++ restB) p = none := by
  intro p hp
  obtain ⟨-, hget⟩ := mem_enumFrom_get? pre 0 p hp
  rw [Nat.sub_zero] at hget
  have hi : p.1 < pre.length := get?_some_lt pre p.1 p.2 hget
  have hA : (pre ++ restA).get? p.1 = some p.2 := by
    rw [get?_append_lt _ _ _ hi]; exact hget
  have hB : (pre ++ restB).get? p.1 = some p.2 := by
    rw [get?_append_lt _ _ _ hi]; exact hget
  obtain ⟨hlink, hhash⟩ := chainValid_spec _ hcv p.1 p.2 hA
  have hpair : p = (p.1, p.2) := rfl
  rw [hpair]
  apply FileStorage.checkOne_none
  · rcases hlink with h0 | hp'
    · exact Or.inl h0
    · right
      have hgd : (pre ++ restA).getD (p.1 - 1) dummyEntry =
          (pre ++ restB).getD (p.1 - 1) dummyEntry := by
        rw [listGetD_eq, listGetD_eq,
          get?_append_lt _ _ _ (Nat.lt_of_le_of_lt (Nat.sub_le p.1 1) hi),
          get?_append_lt _ _ _ (Nat.lt_of_le_of_lt (Nat.sub_le p.1 1) hi)]
      rw [hp', hgd]
  · exact hhash

/-- Entries strictly after the mutated region pass both checks, provided the
entry just before the block kept its `entryHash` (or the block starts the
chain). -/
theorem post_region (pre1 pre2 post : List AuditEntry)
    (hlen : pre1.length = pre2.length)
    (hcv : chainValid (pre1 ++ post) = true)
    (hpred : (pre1.getD (pre1.length - 1) dummyEntry).entryHash =
      (pre2.getD (pre1.length - 1) dummyEntry).entryHash) :
    ∀ p ∈ List.enumFrom pre1.length post, FileStorage.checkOne (pre2 ++ post) p = none := by
  intro p hp
  obtain ⟨hle, hget⟩ := mem_enumFrom_get? post pre1.length p hp
  have hA : (pre1 ++ post).get? p.1 = some p.2 := by
    rw [get?_append_ge _ _ _ hle]; exact hget
  have hB : (pre2 ++ post).get? p.1 = some p.2 := by
    rw [get?_append_ge _ _ _ (hlen ▸ hle), ← hlen]; exact hget
  obtain ⟨hlink, hhash⟩ := chainValid_spec _ hcv p.1 p.2 hA
  have hpair : p = (p.1, p.2) := rfl
  rw [hpair]
  apply FileStorage.checkOne_none
  · rcases hlink with h0 | hp'
    · exact Or.inl h0
    · right
      have hgd : (pre1 ++ post).getD (p.1 - 1) dummyEntry =
          (pre2 ++ post).getD (p.1 - 1) dummyEntry ∨
          ((pre1 ++ post).getD (p.1 - 1) dummyEntry).entryHash =
          ((pre2 ++ post).getD (p.1 - 1) dummyEntry).entryHash := by
        by_cases hcase : p.1 - 1 < pre1.length
        · by_cases hboundary : p.1 - 1 = pre1.length - 1
          · right
            rw [listGetD_eq, listGetD_eq, get?_append_lt _ _ _ hcase,
              get?_append_lt _ _ _ (hlen ▸ hcase), hboundary]
            rw [listGetD_eq, listGetD_eq] at hpred
            exact hpred
          · -- impossible: p.1 ≥ pre1.length and p.1 - 1 < pre1.length force
            -- p.1 - 1 = pre1.length - 1
            omega
        · left
          have hge : pre1.length ≤ p.1 - 1 := Nat.le_of_not_lt hcase
          rw [listGetD_eq, listGetD_eq, get?_append_ge _ _ _ hge,
            get?_append_ge _ _ _ (hlen ▸ hge), ← hlen]
      rcases hgd with hgd | hgd
      · rw [hp', hgd]
      · rw [hp']
        exact congrArg some hgd
  · exact hhash

namespace FileStorage

theorem verifyIntegrity_valid_beq (entries : List AuditEntry) (fd : Option String) :
    (verifyIntegrity entries fd).valid =
      ((verifyIntegrity entries fd).failures.length == 0) := rfl

theorem verifyIntegrity_invalid_len (entries : List AuditEntry) (fd : Option String) :
    (verifyIntegrity entries fd).invalidEntries =
      (verifyIntegrity entries fd).failures.length := rfl

end FileStorage

/-- Decomposition of the checked positions (no date filter) around one
position. -/
theorem toCheck_none_split (pre post : List AuditEntry) (e : AuditEntry) :
    FileStorage.toCheck (pre ++ e :: post) none =
      List.enumFrom 0 pre ++ (pre.length, e) :: List.enumFrom (pre.length + 1) post := by
  show List.enumFrom 0 (pre ++ e :: post) = _
  rw [enumFrom_append' pre (e :: post) 0, Nat.zero_add]
  rfl

/-- Sub-case A of tamper detection: a hash-covered content field of entry *k*
is mutated while its stored `entryHash`, its stored `previousHash`, and all
other entries stay unchanged. Exactly entry *k* is reported, as an entry-hash
mismatch, and every other entry still passes both checks and is counted
valid. -/
theorem tamper_content_report (pre post : List AuditEntry) (ek e' : AuditEntry)
    (hcv : chainValid (pre ++ ek :: post) = true)
    (hhash : e'.entryHash = ek.entryHash)
    (hprev : e'.previousHash = ek.previousHash)
    (hne : computeEntryHash (stripHash e') ≠ computeEntryHash (stripHash ek)) :
    FileStorage.verifyIntegrity (pre ++ e' :: post) none =
      ⟨false, pre.length + 1 + post.length, pre.length + post.length, 1,
       [⟨e'.auditId, e'.timestamp, "Entry hash mismatch - possible tampering",
         some e'.entryHash, some (computeEntryHash (stripHash e'))⟩]⟩ := by
  have hAk : (pre ++ ek :: post).get? pre.length = some ek := by
    rw [get?_append_ge _ _ _ (Nat.le_refl _), Nat.sub_self]
    rfl
  obtain ⟨hlinkk, hhashk⟩ := chainValid_spec _ hcv pre.length ek hAk
  -- the mutated entry fails its content-hash check but not the link check
  have hprevB : pre.length = 0 ∨ e'.previousHash =
      some ((pre ++ e' :: post).getD (pre.length - 1) dummyEntry).entryHash := by
    by_cases hk0 : pre.length = 0
    · exact Or.inl hk0
    · right
      rcases hlinkk with h0 | hp
      · exact absurd h0 hk0
      · have hlt : pre.length - 1 < pre.length := by omega
        have hgd : (pre ++ ek :: post).getD (pre.length - 1) dummyEntry =
            (pre ++ e' :: post).getD (pre.length - 1) dummyEntry := by
          rw [listGetD_eq, listGetD_eq, get?_append_lt _ _ _ hlt, get?_append_lt _ _ _ hlt]
        rw [hprev, hp, hgd]
  have hneB : computeEntryHash (stripHash e') ≠ e'.entryHash := by
    rw [hhash, ← hhashk]
    exact hne
  have hBfail : FileStorage.checkOne (pre ++ e' :: post) (pre.length, e') =
      some ⟨e'.auditId, e'.timestamp, "Entry hash mismatch - possible tampering",
        some e'.entryHash, some (computeEntryHash (stripHash e'))⟩ :=
    FileStorage.checkOne_hashMismatch _ _ _ hprevB hneB
  -- clean regions
  have hprenone := pre_region pre (ek :: post) (e' :: post) hcv
  have hpostnone : ∀ p ∈ List.enumFrom (pre.length + 1) post,
      FileStorage.checkOne (pre ++ e' :: post) p = none := by
    intro p hp
    have hlen1 : (pre ++ [ek]).length = pre.length + 1 := by simp
    have hcv' : chainValid ((pre ++ [ek]) ++ post) = true := by
      rw [List.append_assoc]
      exact hcv
    have hpred : ((pre ++ [ek]).getD ((pre ++ [ek]).length - 1) dummyEntry).entryHash =
        ((pre ++ [e']).getD ((pre ++ [ek]).length - 1) dummyEntry).entryHash := by
      rw [hlen1, Nat.add_sub_cancel, listGetD_eq, listGetD_eq,
        get?_append_ge _ _ _ (Nat.le_refl _), get?_append_ge _ _ _ (Nat.le_refl _),
        Nat.sub_self]
      simpa using hhash.symm
    have h := post_region (pre ++ [ek]) (pre ++ [e']) post (by simp) hcv' hpred p
      (by rw [hlen1]; exact hp)
    rw [List.append_assoc] at h
    exact h
  obtain ⟨hpre1, hpre2⟩ := filterMap_checkOne_nil _ _ hprenone
  obtain ⟨hpost1, hpost2⟩ := filterMap_checkOne_nil _ _ hpostnone
  have hdec := toCheck_none_split pre post e'
  have hfail : (FileStorage.verifyIntegrity (pre ++ e' :: post) none).failures =
      [⟨e'.auditId, e'.timestamp, "Entry hash mismatch - possible tampering",
        some e'.entryHash, some (computeEntryHash (stripHash e'))⟩] := by
    rw [FileStorage.verifyIntegrity_failures, hdec, List.filterMap_append, hpre1,
      List.filterMap_cons, hBfail, hpost1]
    rfl
  have hchecked : (FileStorage.verifyIntegrity (pre ++ e' :: post) none).entriesChecked =
      pre.length + 1 + post.length := by
    rw [FileStorage.verifyIntegrity_entriesChecked, hdec]
    simp [length_enumFrom']
    omega
  have hvalid : (FileStorage.verifyIntegrity (pre ++ e' :: post) none).validEntries =
      pre.length + post.length := by
    rw [FileStorage.verifyIntegrity_validEntries, hdec, List.countP_append,
      List.countP_cons, hpre2, hpost2, hBfail]
    simp
  have hinv : (FileStorage.verifyIntegrity (pre ++ e' :: post) none).invalidEntries = 1 := by
    rw [FileStorage.verifyIntegrity_invalid_len, hfail]
    rfl
  have hv : (FileStorage.verifyIntegrity (pre ++ e' :: post) none).valid = false := by
    rw [FileStorage.verifyIntegrity_valid_beq, hfail]
    rfl
  have heta : FileStorage.verifyIntegrity (pre ++ e' :: post) none =
      ⟨(FileStorage.verifyIntegrity (pre ++ e' :: post) none).valid,
       (FileStorage.verifyIntegrity (pre ++ e' :: post) none).entriesChecked,
       (FileStorage.verifyIntegrity (pre ++ e' :: post) none).validEntries,
       (FileStorage.verifyIntegrity (pre ++ e' :: post) none).invalidEntries,
       (FileStorage.verifyIntegrity (pre ++ e' :: post) none).failures⟩ := rfl
  rw [heta, hv, hchecked, hvalid, hinv, hfail]

/-- Sub-case B of tamper detection: only entry *k*'s stored `entryHash` field
is mutated and entry *k+1* exists. Entry *k* is reported as an entry-hash
mismatch, entry *k+1* as a previous-hash mismatch, and every other entry still
passes both checks. -/
theorem tamper_hash_field_report (pre post' : List AuditEntry) (ek e' e1 : AuditEntry)
    (hcv : chainValid (pre ++ ek :: e1 :: post') = true)
    (hstrip : stripHash e' = stripHash ek)
    (hne : e'.entryHash ≠ ek.entryHash) :
    FileStorage.verifyIntegrity (pre ++ e' :: e1 :: post') none =
      ⟨false, pre.length + 2 + post'.length, pre.length + post'.length, 2,
       [⟨e'.auditId, e'.timestamp, "Entry hash mismatch - possible tampering",
         some e'.entryHash, some (computeEntryHash (stripHash e'))⟩,
        ⟨e1.auditId, e1.timestamp, "Previous hash mismatch",
         some e'.entryHash, e1.previousHash⟩]⟩ := by
  have hprev : e'.previousHash = ek.previousHash := by
    show (stripHash e').previousHash = (stripHash ek).previousHash
    rw [hstrip]
  have hAk : (pre ++ ek :: e1 :: post').get? pre.length = some ek := by
    rw [get?_append_ge _ _ _ (Nat.le_refl _), Nat.sub_self]
    rfl
  have hAk1 : (pre ++ ek :: e1 :: post').get? (pre.length + 1) = some e1 := by
    rw [get?_append_ge _ _ _ (by omega), (by omega : pre.length + 1 - pre.length = 1)]
    rfl
  obtain ⟨hlinkk, hhashk⟩ := chainValid_spec _ hcv pre.length ek hAk
  obtain ⟨hlink1, hhash1⟩ := chainValid_spec _ hcv (pre.length + 1) e1 hAk1
  have hgdk : (pre ++ ek :: e1 :: post').getD pre.length dummyEntry = ek := by
    rw [listGetD_eq, hAk]
    rfl
  have hgdk' : (pre ++ e' :: e1 :: post').getD pre.length dummyEntry = e' := by
    rw [listGetD_eq, get?_append_ge _ _ _ (Nat.le_refl _), Nat.sub_self]
    rfl
  have hlink1' : e1.previousHash = some ek.entryHash := by
    rcases hlink1 with h0 | hp
    · omega
    · rw [Nat.add_sub_cancel, hgdk] at hp
      exact hp
  -- entry k: content-hash failure
  have hprevB : pre.length = 0 ∨ e'.previousHash =
      some ((pre ++ e' :: e1 :: post').getD (pre.length - 1) dummyEntry).entryHash := by
    by_cases hk0 : pre.length = 0
    · exact Or.inl hk0
    · right
      rcases hlinkk with h0 | hp
      · exact absurd h0 hk0
      · have hlt : pre.length - 1 < pre.length := by omega
        have hgd : (pre ++ ek :: e1 :: post').getD (pre.length - 1) dummyEntry =
            (pre ++ e' :: e1 :: post').getD (pre.length - 1) dummyEntry := by
          rw [listGetD_eq, listGetD_eq, get?_append_lt _ _ _ hlt, get?_append_lt _ _ _ hlt]
        rw [hprev, hp, hgd]
  have hneB : computeEntryHash (stripHash e') ≠ e'.entryHash := by
    rw [hstrip, hhashk]
    exact fun hc => hne hc.symm
  have hBfail1 : FileStorage.checkOne (pre ++ e' :: e1 :: post') (pre.length, e') =
      some ⟨e'.auditId, e'.timestamp, "Entry hash mismatch - possible tampering",
        some e'.entryHash, some (computeEntryHash (stripHash e'))⟩ :=
    FileStorage.checkOne_hashMismatch _ _ _ hprevB hneB
  -- entry k+1: previous-hash failure against the mutated hash
  have hBfail2 : FileStorage.checkOne (pre ++ e' :: e1 :: post') (pre.length + 1, e1) =
      some ⟨e1.auditId, e1.timestamp, "Previous hash mismatch",
        some e'.entryHash, e1.previousHash⟩ := by
    have h := FileStorage.checkOne_prevMismatch (pre ++ e' :: e1 :: post')
      (pre.length + 1) e1 (by omega) ?_
    · rw [(by omega : pre.length + 1 - 1 = pre.length), hgdk'] at h
      exact h
    · rw [(by omega : pre.length + 1 - 1 = pre.length), hgdk', hlink1']
      intro hc
      exact hne (Option.some.injEq _ _ ▸ hc).symm
  -- clean regions
  have hprenone := pre_region pre (ek :: e1 :: post') (e' :: e1 :: post') hcv
  have hpostnone : ∀ p ∈ List.enumFrom (pre.length + 2) post',
      FileStorage.checkOne (pre ++ e' :: e1 :: post') p = none := by
    intro p hp
    have hlen1 : (pre ++ [ek, e1]).length = pre.length + 2 := by simp
    have hcv' : chainValid ((pre ++ [ek, e1]) ++ post') = true := by
      rw [List.append_assoc]
      exact hcv
    have hpred : ((pre ++ [ek, e1]).getD ((pre ++ [ek, e1]).length - 1) dummyEntry).entryHash =
        ((pre ++ [e', e1]).getD ((pre ++ [ek, e1]).length - 1) dummyEntry).entryHash := by
      rw [hlen1, (by omega : pre.length + 2 - 1 = pre.length + 1), listGetD_eq, listGetD_eq,
        get?_append_ge _ _ _ (by simp : pre.length ≤ pre.length + 1),
        get?_append_ge _ _ _ (by simp : pre.length ≤ pre.length + 1),
        (by omega : pre.length + 1 - pre.length = 1)]
      rfl
    have h := post_region (pre ++ [ek, e1]) (pre ++ [e', e1]) post' (by simp) hcv' hpred p
      (by rw [hlen1]; exact hp)
    rw [List.append_assoc] at h
    exact h
  obtain ⟨hpre1, hpre2⟩ := filterMap_checkOne_nil _ _ hprenone
  obtain ⟨hpost1, hpost2⟩ := filterMap_checkOne_nil _ _ hpostnone
  have hdec : FileStorage.toCheck (pre ++ e' :: e1 :: post') none =
      List.enumFrom 0 pre ++ (pre.length, e') :: (pre.length + 1, e1) ::
        List.enumFrom (pre.length + 2) post' :=
    toCheck_none_split pre (e1 :: post') e'
  have hfail : (FileStorage.verifyIntegrity (pre ++ e' :: e1 :: post') none).failures =
      [⟨e'.auditId, e'.timestamp, "Entry hash mismatch - possible tampering",
        some e'.entryHash, some (computeEntryHash (stripHash e'))⟩,
       ⟨e1.auditId, e1.timestamp, "Previous hash mismatch",
        some e'.entryHash, e1.previousHash⟩] := by
    rw [FileStorage.verifyIntegrity_failures, hdec, List.filterMap_append, hpre1,
      List.filterMap_cons, hBfail1, List.filterMap_cons, hBfail2, hpost1]
    rfl
  have hchecked : (FileStorage.verifyIntegrity (pre ++ e' :: e1 :: post') none).entriesChecked =
      pre.length + 2 + post'.length := by
    rw [FileStorage.verifyIntegrity_entriesChecked, hdec]
    simp [length_enumFrom']
    omega
  have hvalid : (FileStorage.verifyIntegrity (pre ++ e' :: e1 :: post') none).validEntries =
      pre.length + post'.length := by
    rw [FileStorage.verifyIntegrity_validEntries, hdec, List.countP_append,
      List.countP_cons, List.countP_cons, hpre2, hpost2, hBfail1, hBfail2]
    simp
  have hinv : (FileStorage.verifyIntegrity (pre ++ e' :: e1 :: post') none).invalidEntries = 2 := by
    rw [FileStorage.verifyIntegrity_invalid_len, hfail]
    rfl
  have hv : (FileStorage.verifyIntegrity (pre ++ e' :: e1 :: post') none).valid = false := by
    rw [FileStorage.verifyIntegrity_valid_beq, hfail]
    rfl
  have heta : FileStorage.verifyIntegrity (pre ++ e' :: e1 :: post') none =
      ⟨(FileStorage.verifyIntegrity (pre ++ e' :: e1 :: post') none).valid,
       (FileStorage.verifyIntegrity (pre ++ e' :: e1 :: post') none).entriesChecked,
       (FileStorage.verifyIntegrity (pre ++ e' :: e1 :: post') none).validEntries,
       (FileStorage.verifyIntegrity (pre ++ e' :: e1 :: post') none).invalidEntries,
       (FileStorage.verifyIntegrity (pre ++ e' :: e1 :: post') none).failures⟩ := rfl
  rw [heta, hv, hchecked, hvalid, hinv, hfail]

/-- Claim C1 (amended). For a valid stored chain, (A) mutating hash-covered
content of entry *k* while keeping its stored `entryHash` and `previousHash`
(and all other entries) unchanged makes `verifyIntegrity()` report exactly
entry *k*, with reason `"Entry hash mismatch - possible tampering"`, every
other entry passing both checks and counted valid; (B) mutating only entry
*k*'s stored `entryHash` makes entry *k* report an entry-hash mismatch and
entry *k+1* a previous-hash mismatch, all other entries passing. (Mutating the
hash-covered `previousHash` field of a non-first entry instead yields a
previous-hash mismatch — see the counterexample.) -/
theorem c1_tamper_detection (pre post : List AuditEntry) (ek e' : AuditEntry)
    (hcv : chainValid (pre ++ ek :: post) = true) :
    (e'.entryHash = ek.entryHash → e'.previousHash = ek.previousHash →
      computeEntryHash (stripHash e') ≠ computeEntryHash (stripHash ek) →
      FileStorage.verifyIntegrity (pre ++ e' :: post) none =
        ⟨false, pre.length + 1 + post.length, pre.length + post.length, 1,
         [⟨e'.auditId, e'.timestamp, "Entry hash mismatch - possible tampering",
           some e'.entryHash, some (computeEntryHash (stripHash e'))⟩]⟩) ∧
    (∀ (e1 : AuditEntry) (post' : List AuditEntry), post = e1 :: post' →
      stripHash e' = stripHash ek → e'.entryHash ≠ ek.entryHash →
      FileStorage.verifyIntegrity (pre ++ e' :: post) none =
        ⟨false, pre.length + 2 + post'.length, pre.length + post'.length, 2,
         [⟨e'.auditId, e'.timestamp, "Entry hash mismatch - possible tampering",
           some e'.entryHash, some (computeEntryHash (stripHash e'))⟩,
          ⟨e1.auditId, e1.timestamp, "Previous hash mismatch",
           some e'.entryHash, e1.previousHash⟩]⟩) := by
  constructor
  · intro hhash hprev hne
    exact tamper_content_report pre post ek e' hcv hhash hprev hne
  · intro e1 post' hpost hstrip hne
    subst hpost
    exact tamper_hash_field_report pre post' ek e' e1 hcv hstrip hne

/-- Mutant of `entryB` with only its hash-covered `previousHash` field mutated (stored
`entryHash` unchanged). -/
def entryBprev : AuditEntry := { entryB with previousHash := some "tampered" }

/-- Mutant of `entryB` with one hash-covered content field (`rationale`) mutated (stored
`entryHash` and `previousHash` unchanged). -/
def entryBmut : AuditEntry := { entryB with rationale := "tampered rationale" }

/-- Mutant of `entryA` with only its stored `entryHash` field mutated. -/
def entryAmut : AuditEntry := { entryA with entryHash := "deadbeef" }

/-- Claim C1, counterexample to the claim as stated: `previousHash` is a
hash-covered stored field, yet mutating it on entry 2 of a valid 2-entry chain
is reported with reason `"Previous hash mismatch"`, not
`"Entry hash mismatch - possible tampering"`. -/
theorem c1_counterexample :
    chainValid [entryA, entryB] = true ∧
    entryBprev.entryHash = entryB.entryHash ∧
    entryBprev.previousHash ≠ entryB.previousHash ∧
    (FileStorage.verifyIntegrity [entryA, entryBprev] none).failures.map
      (fun f => f.reason) = ["Previous hash mismatch"] ∧
    "Previous hash mismatch" ≠ "Entry hash mismatch - possible tampering" := by
  refine ⟨chainValid_pair, rfl, by decide, by decide, by decide⟩

/-- Claim C1, witness: both sub-cases of the amended claim applied to concrete
two-entry chains. -/
theorem c1_witness :
    FileStorage.verifyIntegrity [entryA, entryBmut] none =
      ⟨false, 2, 1, 1,
       [⟨"a2", "2024-02-01T00:00:00.000Z", "Entry hash mismatch - possible tampering",
         some entryB.entryHash, some (computeEntryHash (stripHash entryBmut))⟩]⟩ ∧
    FileStorage.verifyIntegrity [entryAmut, entryB] none =
      ⟨false, 2, 0, 2,
       [⟨"a1", "2024-01-01T00:00:00.000Z", "Entry hash mismatch - possible tampering",
         some "deadbeef", some (computeEntryHash (stripHash entryAmut))⟩,
        ⟨"a2", "2024-02-01T00:00:00.000Z", "Previous hash mismatch",
         some "deadbeef", entryB.previousHash⟩]⟩ := by
  constructor
  · exact (c1_tamper_detection [entryA] [] entryB entryBmut chainValid_pair).1
      rfl rfl (by decide)
  · exact (c1_tamper_detection [] [entryB] entryA entryAmut chainValid_pair).2
      entryB [] rfl rfl (by decide)

/-- The date predicate of `verifyIntegrity` on a single entry (a falsy
`fromDate` — absent or empty — filters nothing). -/
def entryInFilter (fd : Option String) (e : AuditEntry) : Bool :=
  match fd with
  | some s => if s = "" then true else jsGe (jsTime e.timestamp) (jsTime s)
  | none => true

theorem enum_eq_enumFrom {α : Type} (l : List α) : l.enum = List.enumFrom 0 l := rfl

/-- Claim C3. `verifyIntegrity(fromDate)` checks each reported-on entry's
`previousHash` against its predecessor in the full storage order (so linkage
across the date boundary is still checked); `entriesChecked` counts only the
entries within the date filter; `validEntries + invalidEntries =
entriesChecked`; and `valid` holds iff `invalidEntries = 0`. -/
theorem c3_date_filter_counts (entries : List AuditEntry) (fd : Option String) :
    (FileStorage.verifyIntegrity entries fd).entriesChecked =
      (entries.filter (entryInFilter fd)).length ∧
    (FileStorage.verifyIntegrity entries fd).validEntries +
      (FileStorage.verifyIntegrity entries fd).invalidEntries =
      (FileStorage.verifyIntegrity entries fd).entriesChecked ∧
    ((FileStorage.verifyIntegrity entries fd).valid = true ↔
      (FileStorage.verifyIntegrity entries fd).invalidEntries = 0) ∧
    (∀ (i : Nat) (e : AuditEntry), (i, e) ∈ FileStorage.toCheck entries fd → 0 < i →
      e.previousHash ≠ some (entries.getD (i - 1) dummyEntry).entryHash →
      (⟨e.auditId, e.timestamp, "Previous hash mismatch",
        some (entries.getD (i - 1) dummyEntry).entryHash, e.previousHash⟩ : IntegrityFailure) ∈
        (FileStorage.verifyIntegrity entries fd).failures) := by
  refine ⟨?_, ?_, ?_, ?_⟩
  · rw [FileStorage.verifyIntegrity_entriesChecked]
    cases fd with
    | none =>
      show (List.enumFrom 0 entries).length = _
      have hfe : List.filter (entryInFilter none) entries = entries :=
        List.filter_eq_self.mpr (fun a _ => rfl)
      rw [length_enumFrom', hfe]
    | some s =>
      by_cases hs : s = ""
      · subst hs
        show (List.enumFrom 0 entries).length = _
        have hfe : List.filter (entryInFilter (some "")) entries = entries :=
          List.filter_eq_self.mpr (fun a _ => rfl)
        rw [length_enumFrom', hfe]
      · simp only [FileStorage.toCheck, if_neg hs]
        rw [enum_eq_enumFrom]
        refine (length_filter_enumFrom
          (fun e : AuditEntry => jsGe (jsTime e.timestamp) (jsTime s)) entries 0).trans ?_
        congr 1
        apply List.filter_congr
        intro e _
        simp [entryInFilter, hs]
  · rw [FileStorage.verifyIntegrity_validEntries, FileStorage.verifyIntegrity_invalid_len,
      FileStorage.verifyIntegrity_failures, FileStorage.verifyIntegrity_entriesChecked,
      length_filterMap_eq_countP]
    exact countP_isNone_add_isSome _ _
  · rw [FileStorage.verifyIntegrity_valid_beq, FileStorage.verifyIntegrity_invalid_len]
    simp
  · intro i e hmem hi hne
    rw [FileStorage.verifyIntegrity_failures]
    exact List.mem_filterMap.mpr
      ⟨(i, e), hmem, FileStorage.checkOne_prevMismatch entries i e hi hne⟩

/-- A second stored entry with a dangling `previousHash` (and an arbitrary
stored hash): its predecessor in full storage order is `entryA`. -/
def entryBad2 : AuditEntry :=
  ⟨⟨"a2x", "2024-02-01T00:00:00.000Z", "finctl", "c2", "1", .nil, .nil, "r", [],
    ⟨[], [], false, none, none⟩, "system", none, none, none, none, some "bogus"⟩,
   "bogushash"⟩

/-- Claim C3, witness: a `fromDate` excluding entry 1 still checks entry 2's
linkage against entry 1, and `entriesChecked` counts only entry 2. -/
theorem c3_witness :
    (⟨"a2x", "2024-02-01T00:00:00.000Z", "Previous hash mismatch",
      some entryA.entryHash, some "bogus"⟩ : IntegrityFailure) ∈
      (FileStorage.verifyIntegrity [entryA, entryBad2]
        (some "2024-01-15T00:00:00.000Z")).failures ∧
    (FileStorage.verifyIntegrity [entryA, entryBad2]
      (some "2024-01-15T00:00:00.000Z")).entriesChecked = 1 := by
  have h := c3_date_filter_counts [entryA, entryBad2] (some "2024-01-15T00:00:00.000Z")
  constructor
  · have hmem : ((1 : Nat), entryBad2) ∈
        FileStorage.toCheck [entryA, entryBad2] (some "2024-01-15T00:00:00.000Z") := by
      rw [show FileStorage.toCheck [entryA, entryBad2] (some "2024-01-15T00:00:00.000Z") =
        [(1, entryBad2)] from rfl]
      exact List.mem_singleton.mpr rfl
    exact h.2.2.2 1 entryBad2 hmem (by omega) (by decide)
  · rw [h.1]
    rfl

/-- Claim C5. A checked non-first entry whose `previousHash` differs from the
immediately preceding stored entry's `entryHash` contributes exactly one
failure — reason `"Previous hash mismatch"`, expected the predecessor's hash,
actual the entry's stored `previousHash` — and is skipped: its own content
hash is not also checked, and it is not counted valid. -/
theorem c5_prev_mismatch_single_failure (entries : List AuditEntry) (fd : Option String)
    (i : Nat) (e : AuditEntry)
    (hmem : (i, e) ∈ FileStorage.toCheck entries fd) (hi : 0 < i)
    (hne : e.previousHash ≠ some (entries.getD (i - 1) dummyEntry).entryHash) :
    FileStorage.checkOne entries (i, e) =
      some ⟨e.auditId, e.timestamp, "Previous hash mismatch",
        some (entries.getD (i - 1) dummyEntry).entryHash, e.previousHash⟩ ∧
    (FileStorage.verifyIntegrity entries fd).failures =
      (FileStorage.toCheck entries fd).filterMap (FileStorage.checkOne entries) ∧
    (⟨e.auditId, e.timestamp, "Previous hash mismatch",
      some (entries.getD (i - 1) dummyEntry).entryHash, e.previousHash⟩ : IntegrityFailure) ∈
      (FileStorage.verifyIntegrity entries fd).failures ∧
    (FileStorage.verifyIntegrity entries fd).validEntries =
      (FileStorage.toCheck entries fd).countP
        (fun p => (FileStorage.checkOne entries p).isNone) := by
  refine ⟨FileStorage.checkOne_prevMismatch entries i e hi hne,
    FileStorage.verifyIntegrity_failures entries fd, ?_,
    FileStorage.verifyIntegrity_validEntries entries fd⟩
  rw [FileStorage.verifyIntegrity_failures]
  exact List.mem_filterMap.mpr
    ⟨(i, e), hmem, FileStorage.checkOne_prevMismatch entries i e hi hne⟩

/-- Claim C5, witness: the dangling second entry is reported with the
predecessor's hash as expected and its own stored `previousHash` as actual. -/
theorem c5_witness :
    FileStorage.checkOne [entryA, entryBad2] (1, entryBad2) =
      some ⟨"a2x", "2024-02-01T00:00:00.000Z", "Previous hash mismatch",
        some entryA.entryHash, some "bogus"⟩ ∧
    (⟨"a2x", "2024-02-01T00:00:00.000Z", "Previous hash mismatch",
      some entryA.entryHash, some "bogus"⟩ : IntegrityFailure) ∈
      (FileStorage.verifyIntegrity [entryA, entryBad2] none).failures := by
  have hmem : ((1 : Nat), entryBad2) ∈ FileStorage.toCheck [entryA, entryBad2] none := by
    rw [show FileStorage.toCheck [entryA, entryBad2] none =
      [(0, entryA), (1, entryBad2)] from rfl]
    simp
  have h := c5_prev_mismatch_single_failure [entryA, entryBad2] none 1 entryBad2 hmem
    (by omega) (by decide)
  exact ⟨h.1, h.2.2.1⟩

/-- Claim C4 (amended). A checked entry with correct linkage whose recomputed
content hash differs from its stored `entryHash` is reported with reason
`"Entry hash mismatch - possible tampering"`, `expectedHash` equal to the
STORED `entryHash`, and `actualHash` equal to the RECOMPUTED hash (the
opposite labelling of the claim as stated). -/
theorem c4_hash_mismatch_failure_fields (entries : List AuditEntry) (fd : Option String)
    (i : Nat) (e : AuditEntry)
    (hmem : (i, e) ∈ FileStorage.toCheck entries fd)
    (hprev : i = 0 ∨ e.previousHash = some (entries.getD (i - 1) dummyEntry).entryHash)
    (hne : computeEntryHash (stripHash e) ≠ e.entryHash) :
    FileStorage.checkOne entries (i, e) =
      some ⟨e.auditId, e.timestamp, "Entry hash mismatch - possible tampering",
        some e.entryHash, some (computeEntryHash (stripHash e))⟩ ∧
    (⟨e.auditId, e.timestamp, "Entry hash mismatch - possible tampering",
      some e.entryHash, some (computeEntryHash (stripHash e))⟩ : IntegrityFailure) ∈
      (FileStorage.verifyIntegrity entries fd).failures := by
  refine ⟨FileStorage.checkOne_hashMismatch entries i e hprev hne, ?_⟩
  rw [FileStorage.verifyIntegrity_failures]
  exact List.mem_filterMap.mpr
    ⟨(i, e), hmem, FileStorage.checkOne_hashMismatch entries i e hprev hne⟩

/-- Copy of `entryA` whose stored `entryHash` is `"00"`, which does not
match the recomputed content hash. -/
def entryTampered : AuditEntry := ⟨entryA.toEntryCore, "00"⟩

/-- Claim C4, counterexample to the claim as stated: on a content-hash mismatch
the code stores the STORED hash in `expectedHash` and the RECOMPUTED hash in
`actualHash` — the opposite of the claimed labelling. -/
theorem c4_counterexample :
    ∃ f : IntegrityFailure,
      (FileStorage.verifyIntegrity [entryTampered] none).failures = [f] ∧
      f.reason = "Entry hash mismatch - possible tampering" ∧
      f.expectedHash = some entryTampered.entryHash ∧
      f.actualHash = some (computeEntryHash (stripHash entryTampered)) ∧
      f.expectedHash ≠ some (computeEntryHash (stripHash entryTampered)) ∧
      f.actualHash ≠ some entryTampered.entryHash := by
  have hc : computeEntryHash (stripHash entryTampered) =
      "be396bca4b29c726264e41a52ff1ab5b56757bcdfac8bd4d6ce791eb32e1f365" := by decide
  refine ⟨⟨"a1", "2024-01-01T00:00:00.000Z", "Entry hash mismatch - possible tampering",
    some "00", some "be396bca4b29c726264e41a52ff1ab5b56757bcdfac8bd4d6ce791eb32e1f365"⟩,
    ?_, rfl, rfl, ?_, ?_, ?_⟩
  · decide
  · rw [hc]
  · rw [hc]; decide
  · decide

/-- Claim C4, witness: the amended labelling applied to a concrete tampered
single-entry log. -/
theorem c4_witness :
    FileStorage.checkOne [entryTampered] (0, entryTampered) =
      some ⟨"a1", "2024-01-01T00:00:00.000Z", "Entry hash mismatch - possible tampering",
        some "00", some (computeEntryHash (stripHash entryTampered))⟩ ∧
    (⟨"a1", "2024-01-01T00:00:00.000Z", "Entry hash mismatch - possible tampering",
      some "00", some (computeEntryHash (stripHash entryTampered))⟩ : IntegrityFailure) ∈
      (FileStorage.verifyIntegrity [entryTampered] none).failures := by
  have hmem : ((0 : Nat), entryTampered) ∈ FileStorage.toCheck [entryTampered] none := by
    rw [show FileStorage.toCheck [entryTampered] none = [(0, entryTampered)] from rfl]
    simp
  have h := c4_hash_mismatch_failure_fields [entryTampered] none 0 entryTampered hmem
    (Or.inl rfl) (by decide)
  exact ⟨h.1, h.2⟩

/-! ## Chain linkage of `log()` sequences (C2) -/

theorem getLast?_cons_getLastD {α : Type} :
    ∀ (t : List α) (a : α), (a :: t).getLast? = some (t.getLastD a)
  | [], a => rfl
  | b :: t', a => by
    rw [List.getLast?_cons_cons, getLast?_cons_getLastD t' b, List.getLastD_cons]

theorem linkedAfter_append (e : AuditEntry) :
    ∀ (s : List AuditEntry) (p : AuditEntry),
    linkedAfter p s = true → e.previousHash = some ((s.getLastD p).entryHash) →
    linkedAfter p (s ++ [e]) = true
  | [], p => by
    intro _ h2
    simp [linkedAfter, h2]
  | a :: t, p => by
    intro h1 h2
    rw [show linkedAfter p (a :: t) =
      ((a.previousHash == some p.entryHash) && linkedAfter a t) from rfl,
      Bool.and_eq_true] at h1
    rw [List.cons_append,
      show linkedAfter p (a :: (t ++ [e])) =
        ((a.previousHash == some p.entryHash) && linkedAfter a (t ++ [e])) from rfl,
      Bool.and_eq_true]
    refine ⟨h1.1, linkedAfter_append e t a h1.2 ?_⟩
    rw [h2, List.getLastD_cons]

theorem chainLinked_append (s : List AuditEntry) (e : AuditEntry)
    (h1 : chainLinked s = true)
    (h2 : e.previousHash = (s.getLast?).map (fun x => x.entryHash)) :
    chainLinked (s ++ [e]) = true := by
  cases s with
  | nil =>
    simp at h2
    simp [chainLinked, linkedAfter, h2]
  | cons a t =>
    rw [getLast?_cons_getLastD] at h2
    rw [show chainLinked (a :: t) = ((a.previousHash == none) && linkedAfter a t) from rfl,
      Bool.and_eq_true] at h1
    rw [List.cons_append,
      show chainLinked (a :: (t ++ [e])) =
        ((a.previousHash == none) && linkedAfter a (t ++ [e])) from rfl,
      Bool.and_eq_true]
    exact ⟨h1.1, linkedAfter_append e t a h1.2 (by simpa using h2)⟩

theorem runLog_preserves (lg : AuditLogger) :
    ∀ (calls : List LogCall) (storage : List AuditEntry),
    chainLinked storage = true → chainLinked (runLog lg calls storage) = true
  | [], _ => fun h => h
  | c :: rest, storage => fun h => by
    rw [runLog]
    apply runLog_preserves lg rest
    exact chainLinked_append storage _ h rfl

theorem runLog_length (lg : AuditLogger) :
    ∀ (calls : List LogCall) (storage : List AuditEntry),
    (runLog lg calls storage).length = storage.length + calls.length
  | [], storage => by simp [runLog]
  | c :: rest, storage => by
    rw [runLog, runLog_length lg rest]
    simp [AuditLogger.log]
    omega

/-- Claim C2. For every sequence of `log()` calls against one storage instance
starting from an empty log (single writer), the stored chain has one entry per
call, the first entry has no `previousHash`, and every later entry's
`previousHash` equals the preceding entry's `entryHash`. -/
theorem c2_chain_linkage (lg : AuditLogger) (calls : List LogCall) :
    (runLog lg calls []).length = calls.length ∧
    chainLinked (runLog lg calls []) = true := by
  constructor
  · simpa using runLog_length lg calls []
  · exact runLog_preserves lg calls [] rfl

/-! ## Decline policy of `logDecision` (C6) -/

theorem JObj.get_set_self : ∀ (o : JObj) (k : String) (v : JValue),
    (JObj.set o k v).get k = some v
  | .nil, k, v => by simp [JObj.set, JObj.get]
  | .cons k' w rest, k, v => by
    by_cases h : k' = k
    · simp [JObj.set, h, JObj.get]
    · simp [JObj.set, h, JObj.get, JObj.get_set_self rest k v]

/-- Claim C6 (amended). `logDecision` with `decision == "declined"` yields an
entry whose regulations contain `"ECOA"` and `"Reg B"`, whose
`humanReviewRequired` is true, and whose `outputs.adverseActionReasons` equals
the caller's `declineReasons` when that field was supplied — even if it is the
empty list — and the sentinel `["Unspecified reason"]` when it was absent. -/
theorem c6_decline_policy (lg : AuditLogger) (storage : List AuditEntry)
    (options : AuditEntryOptions) (declineReasons : Option (List String))
    (genId genTs : String) :
    "ECOA" ∈ ((AuditLogger.logDecision lg storage options "declined" declineReasons
      genId genTs).1).compliance.regulations ∧
    "Reg B" ∈ ((AuditLogger.logDecision lg storage options "declined" declineReasons
      genId genTs).1).compliance.regulations ∧
    ((AuditLogger.logDecision lg storage options "declined" declineReasons
      genId genTs).1).compliance.humanReviewRequired = true ∧
    ((AuditLogger.logDecision lg storage options "declined" declineReasons
      genId genTs).1).outputs.get "adverseActionReasons" =
      some (strArrJ (declineReasons.getD ["Unspecified reason"])) := by
  refine ⟨?_, ?_, ?_, ?_⟩
  · show "ECOA" ∈ ((options.compliance.bind
      (fun c => c.regulations)).getD []) ++ ["ECOA", "Reg B"]
    simp
  · show "Reg B" ∈ ((options.compliance.bind
      (fun c => c.regulations)).getD []) ++ ["ECOA", "Reg B"]
    simp
  · rfl
  · show (JObj.set (JObj.set options.outputs "decision" (.str "declined"))
      "adverseActionReasons" (strArrJ (declineReasons.getD ["Unspecified reason"]))).get
      "adverseActionReasons" = _
    rw [JObj.get_set_self]

/-- Minimal decision options: empty inputs/outputs, no compliance block. -/
def declineOpts : AuditEntryOptions :=
  ⟨"decctl", "decide", "1", .nil, .nil, "r", none, none, none, none, none, none, none⟩

/-- Claim C6, counterexample to the claim as stated: a caller-supplied EMPTY
`declineReasons` list is truthy in JS, so `adverseActionReasons` ends up empty
— the claimed non-emptiness fails. -/
theorem c6_counterexample :
    ((AuditLogger.logDecision ⟨"system", none⟩ [] declineOpts "declined" (some [])
      "a1" "2024-01-01T00:00:00.000Z").1).outputs.get "adverseActionReasons" =
      some (strArrJ []) ∧
    strArrJ [] = JValue.arr JArr.nil := by
  exact ⟨rfl, rfl⟩

/-! ## Shape of `computeEntryHash` (C7) -/

theorem flatMap_byteHex_length : ∀ bs : List Nat, (bs.flatMap byteHex).length = 2 * bs.length
  | [] => rfl
  | b :: rest => by
    simp [List.flatMap_cons, byteHex, flatMap_byteHex_length rest]
    omega

theorem sha256Bytes_length (msg : List Nat) : (sha256Bytes msg).length = 32 := by
  simp [sha256Bytes, wordBytes]

theorem hexDigit_mem (n : Nat) : hexDigit n ∈ "0123456789abcdef".toList := by
  unfold hexDigit
  have h : n % 16 < 16 := Nat.mod_lt _ (by omega)
  generalize n % 16 = k at h ⊢
  interval_cases k <;> decide

theorem mem_flatMap_byteHex {c : Char} {bs : List Nat} (h : c ∈ bs.flatMap byteHex) :
    c ∈ "0123456789abcdef".toList := by
  rcases List.mem_flatMap.mp h with ⟨b, -, hc⟩
  simp only [byteHex, List.mem_cons, List.not_mem_nil, or_false] at hc
  rcases hc with hc | hc
  · subst hc
    exact hexDigit_mem (b / 16)
  · subst hc
    exact hexDigit_mem b

/-- Claim C7. `computeEntryHash` is a pure deterministic function of the
entry-without-hash: its output always has 64 characters, all of them lowercase
hexadecimal digits, two applications to the same input agree, and the stored
`entryHash` field is never part of the hash input (replacing it changes
nothing). -/
theorem c7_hash_shape (e : EntryCore) (a : AuditEntry) (h' : String) :
    (computeEntryHash e).length = 64 ∧
    (∀ c ∈ (computeEntryHash e).toList, c ∈ "0123456789abcdef".toList) ∧
    computeEntryHash e = computeEntryHash e ∧
    computeEntryHash (stripHash (AuditEntry.mk a.toEntryCore h')) =
      computeEntryHash (stripHash a) := by
  refine ⟨?_, ?_, rfl, rfl⟩
  · show ((sha256Bytes (utf8Bytes (canonicalContent e))).flatMap byteHex).length = 64
    rw [flatMap_byteHex_length, sha256Bytes_length]
  · intro c hc
    exact mem_flatMap_byteHex hc

/-- Claim C7, witness: the hash of a concrete entry has the claimed shape, and
overwriting the stored `entryHash` field does not change the hash input. -/
theorem c7_witness :
    (computeEntryHash (stripHash entryA)).length = 64 ∧
    computeEntryHash (stripHash (AuditEntry.mk entryA.toEntryCore "zz")) =
      computeEntryHash (stripHash entryA) :=
  ⟨(c7_hash_shape (stripHash entryA) entryA "zz").1,
   (c7_hash_shape (stripHash entryA) entryA "zz").2.2.2⟩

/-! ## Conjunctive query semantics (C8) -/

theorem filter_filter' {α : Type} (p q : α → Bool) :
    ∀ l : List α, (l.filter p).filter q = l.filter (fun a => p a && q a)
  | [] => rfl
  | a :: t => by
    cases hp : p a <;> cases hq : q a <;>
      simp [List.filter_cons, hp, hq, filter_filter' p q t]

/-- A conditionally applied filter pass is one filter whose predicate is
gated by the (entry-independent) condition. -/
theorem condFilterProp {α : Type} (c : Prop) [Decidable c] (p : α → Bool) (l : List α) :
    (if c then l.filter p else l) = l.filter (fun e => !(decide c) || p e) := by
  by_cases h : c
  · rw [if_pos h]
    apply List.filter_congr
    intro a _
    simp [h]
  · rw [if_neg h]
    exact (List.filter_eq_self.mpr (fun a _ => by simp [h])).symm

/-- The `startDate` pass of `query` as a single gated predicate. -/
def startDateGate (options : AuditQueryOptions) (e : AuditEntry) : Bool :=
  match options.startDate with
  | some sd => if sd = "" then true else jsGe (jsTime e.timestamp) (jsTime sd)
  | none => true

/-- The `endDate` pass of `query` as a single gated predicate. -/
def endDateGate (options : AuditQueryOptions) (e : AuditEntry) : Bool :=
  match options.endDate with
  | some ed => if ed = "" then true else jsLe (jsTime e.timestamp) (jsTime ed)
  | none => true

theorem startDate_pass (options : AuditQueryOptions) (l : List AuditEntry) :
    (match options.startDate with
     | some sd => if sd ≠ "" then
         l.filter (fun (e : AuditEntry) => jsGe (jsTime e.timestamp) (jsTime sd))
       else l
     | none => l) = l.filter (startDateGate options) := by
  cases hsd : options.startDate with
  | none => exact (List.filter_eq_self.mpr (fun a _ => by simp [startDateGate, hsd])).symm
  | some sd =>
    show (if sd ≠ "" then
        l.filter (fun (e : AuditEntry) => jsGe (jsTime e.timestamp) (jsTime sd))
      else l) = _
    by_cases hs : sd = ""
    · rw [if_neg (by simp [hs])]
      exact (List.filter_eq_self.mpr (fun a _ => by simp [startDateGate, hsd, hs])).symm
    · rw [if_pos hs]
      apply List.filter_congr
      intro a _
      simp [startDateGate, hsd, hs]

theorem endDate_pass (options : AuditQueryOptions) (l : List AuditEntry) :
    (match options.endDate with
     | some ed => if ed ≠ "" then
         l.filter (fun (e : AuditEntry) => jsLe (jsTime e.timestamp) (jsTime ed))
       else l
     | none => l) = l.filter (endDateGate options) := by
  cases hed : options.endDate with
  | none => exact (List.filter_eq_self.mpr (fun a _ => by simp [endDateGate, hed])).symm
  | some ed =>
    show (if ed ≠ "" then
        l.filter (fun (e : AuditEntry) => jsLe (jsTime e.timestamp) (jsTime ed))
      else l) = _
    by_cases hs : ed = ""
    · rw [if_neg (by simp [hs])]
      exact (List.filter_eq_self.mpr (fun a _ => by simp [endDateGate, hed, hs])).symm
    · rw [if_pos hs]
      apply List.filter_congr
      intro a _
      simp [endDateGate, hed, hs]

/-- The conjunction (logical AND) of all specified filters, in pass order. -/
def matchesAll (options : AuditQueryOptions) (e : AuditEntry) : Bool :=
  (!strTruthy options.loanId || (e.loanId == options.loanId)) &&
    ((!strTruthy options.tool || (some e.tool == options.tool)) &&
    ((!strTruthy options.command || (some e.command == options.command)) &&
    ((!strTruthy options.operator || (some e.operator == options.operator)) &&
    ((!strTruthy options.sessionId || (e.sessionId == options.sessionId)) &&
    (startDateGate options e &&
    (endDateGate options e &&
    ((!(options.hasRiskFlags == some true) ||
      decide (e.compliance.riskFlags.length > 0)) &&
    (!(decide (options.humanReviewRequired ≠ none)) ||
      (some e.compliance.humanReviewRequired == options.humanReviewRequired)))))))))

/-- The `limit || filtered.length` default: absent or `0` (both falsy) mean
"no limit". -/
def jsLimit (options : AuditQueryOptions) (n : Nat) : Nat :=
  match options.limit with
  | none => n
  | some 0 => n
  | some l => l

/-- A conditionally applied filter pass, for a JS-truthiness `Bool` guard. -/
theorem condFilterBool {α : Type} (g : Bool) (p : α → Bool) (l : List α) :
    (if g = true then l.filter p else l) = l.filter (fun e => !g || p e) := by
  cases g
  · rw [if_neg (by simp)]
    exact (List.filter_eq_self.mpr (fun a _ => rfl)).symm
  · rw [if_pos rfl]
    exact List.filter_congr (fun a _ => rfl)

/-- The filter chain of `query` collapses to one conjunctive filter. -/
theorem query_eq_filter (entries : List AuditEntry) (options : AuditQueryOptions) :
    FileStorage.query entries options =
      ((entries.filter (matchesAll options)).drop (options.offset.getD 0)).take
        (jsLimit options (entries.filter (matchesAll options)).length) := by
  simp only [FileStorage.query]
  rw [condFilterBool, condFilterBool, condFilterBool, condFilterBool, condFilterBool,
    startDate_pass, endDate_pass, condFilterBool, condFilterProp,
    filter_filter', filter_filter', filter_filter', filter_filter',
    filter_filter', filter_filter', filter_filter', filter_filter']
  rfl

/-- Claim C8. `query` returns exactly the entries satisfying the conjunction of
all specified filters, in storage order, with offset/limit pagination applied
after filtering; an unspecified limit (with unspecified offset) returns all
matching entries; an empty log and a log with zero matches both yield an empty
result. -/
theorem c8_query_semantics (entries : List AuditEntry) (options : AuditQueryOptions) :
    FileStorage.query entries options =
      ((entries.filter (matchesAll options)).drop (options.offset.getD 0)).take
        (jsLimit options (entries.filter (matchesAll options)).length) ∧
    (options.limit = none → options.offset = none →
      FileStorage.query entries options = entries.filter (matchesAll options)) ∧
    FileStorage.query [] options = [] ∧
    (entries.filter (matchesAll options) = [] →
      FileStorage.query entries options = []) := by
  refine ⟨query_eq_filter entries options, ?_, ?_, ?_⟩
  · intro hl ho
    rw [query_eq_filter entries options]
    simp [jsLimit, hl, ho]
  · rw [query_eq_filter [] options]
    simp
  · intro h
    rw [query_eq_filter entries options, h]
    simp

/-- Claim C8, witness: a tool filter on a two-entry log returns exactly the
matching entry; the empty log and a zero-match filter return empty results. -/
theorem c8_witness :
    FileStorage.query [entryA, entryB]
      ⟨none, some "decctl", none, none, none, none, none, none, none, none, none⟩ =
      [entryB] ∧
    FileStorage.query ([] : List AuditEntry)
      ⟨none, some "decctl", none, none, none, none, none, none, none, none, none⟩ = [] ∧
    FileStorage.query [entryA, entryB]
      ⟨none, some "noctl", none, none, none, none, none, none, none, none, none⟩ = [] := by
  refine ⟨?_, ?_, ?_⟩
  · rw [(c8_query_semantics [entryA, entryB]
      ⟨none, some "decctl", none, none, none, none, none, none, none, none, none⟩).2.1 rfl rfl]
    rfl
  · exact (c8_query_semantics []
      ⟨none, some "decctl", none, none, none, none, none, none, none, none, none⟩).2.2.1
  · exact (c8_query_semantics [entryA, entryB]
      ⟨none, some "noctl", none, none, none, none, none, none, none, none, none⟩).2.2.2 rfl

/-! ## Malformed-line tolerance of the reader (C9) -/

/-- Claim C9. Reading the log keeps exactly the non-blank lines that parse as
JSON, in order; a line that fails to parse is skipped without aborting the
read and contributes to no result. -/
theorem c9_malformed_line_skip (lines pre post : List String) (bad : String)
    (hbad : jsonParse bad = none) :
    readAllEntries lines = (lines.filter lineNonBlank).filterMap jsonParse ∧
    readAllEntries (pre ++ bad :: post) = readAllEntries (pre ++ post) := by
  constructor
  · induction lines with
    | nil => rfl
    | cons l rest ih =>
      by_cases hnb : lineNonBlank l
      · cases hj : jsonParse l with
        | some v => simp [readAllEntries, List.filter_cons, hnb, hj, List.filterMap_cons, ih]
        | none => simp [readAllEntries, List.filter_cons, hnb, hj, List.filterMap_cons, ih]
      · simp [readAllEntries, List.filter_cons, hnb, ih]
  · induction pre with
    | nil =>
      show readAllEntries (bad :: post) = readAllEntries post
      by_cases hnb : lineNonBlank bad
      · simp [readAllEntries, hnb, hbad]
      · simp [readAllEntries, hnb]
    | cons p pre' ih =>
      show readAllEntries (p :: (pre' ++ bad :: post)) = readAllEntries (p :: (pre' ++ post))
      by_cases hnb : lineNonBlank p
      · cases hj : jsonParse p with
        | some v => simp [readAllEntries, hnb, hj, ih]
        | none => simp [readAllEntries, hnb, hj, ih]
      · simp [readAllEntries, hnb, ih]

/-- Claim C9, witness: a malformed middle line is skipped; the surrounding lines
survive and parse. -/
theorem c9_witness :
    jsonParse "\x7bnot json" = none ∧
    readAllEntries ["\x7b\"a\":1\x7d", "\x7bnot json", "[2]"] =
      readAllEntries ["\x7b\"a\":1\x7d", "[2]"] ∧
    readAllEntries ["\x7b\"a\":1\x7d", "\x7bnot json", "[2]"] =
      [JValue.obj (.cons "a" (.num 1) .nil), JValue.arr (.cons (.num 2) .nil)] := by
  refine ⟨rfl, ?_, rfl⟩
  exact (c9_malformed_line_skip [] ["\x7b\"a\":1\x7d"] ["[2]"] "\x7bnot json" rfl).2

/-! ## Array flattening and redaction in `sanitizeInputs` (C10) -/

mutual

/-- No array value occurs in this JS value, at any depth. -/
def arrFreeV : JValue → Bool
  | .str _ => true
  | .num _ => true
  | .bool _ => true
  | .null => true
  | .arr _ => false
  | .obj fs => arrFreeO fs

/-- No array value occurs under this object, at any depth. -/
def arrFreeO : JObj → Bool
  | .nil => true
  | .cons _ v rest => arrFreeV v && arrFreeO rest

end

/-- Number of elements of a JSON array. -/
def jarrLen : JArr → Nat
  | .nil => 0
  | .cons _ t => jarrLen t + 1

theorem sanitizeArr_keys : ∀ (es : JArr) (n : Nat),
    JObj.keys (sanitizeArr n es) = (List.range' n (jarrLen es)).map (fun i => toString i)
  | .nil, _ => rfl
  | .cons v t, n => by
    show toString n :: JObj.keys (sanitizeArr (n + 1) t) = _
    rw [sanitizeArr_keys t (n + 1)]
    rfl

mutual

theorem arrFreeV_sanitizeValue : ∀ v : JValue, arrFreeV (sanitizeValue v) = true
  | .str _ => rfl
  | .num _ => rfl
  | .bool _ => rfl
  | .null => rfl
  | .arr es => arrFreeO_sanitizeArr 0 es
  | .obj fs => arrFreeO_sanitizeInputs fs

theorem arrFreeO_sanitizeInputs : ∀ o : JObj, arrFreeO (sanitizeInputs o) = true
  | .nil => rfl
  | .cons k v rest => by
    show (arrFreeV (if isSensitiveKey k then .str "[REDACTED]" else sanitizeValue v) &&
      arrFreeO (sanitizeInputs rest)) = true
    rw [Bool.and_eq_true]
    refine ⟨?_, arrFreeO_sanitizeInputs rest⟩
    by_cases h : isSensitiveKey k
    · rw [if_pos h]
      rfl
    · rw [if_neg h]
      exact arrFreeV_sanitizeValue v

theorem arrFreeO_sanitizeArr : ∀ (n : Nat) (es : JArr), arrFreeO (sanitizeArr n es) = true
  | _, .nil => rfl
  | n, .cons v t => by
    show (arrFreeV (if isSensitiveKey (toString n) then .str "[REDACTED]"
      else sanitizeValue v) && arrFreeO (sanitizeArr (n + 1) t)) = true
    rw [Bool.and_eq_true]
    refine ⟨?_, arrFreeO_sanitizeArr (n + 1) t⟩
    by_cases h : isSensitiveKey (toString n)
    · rw [if_pos h]
      rfl
    · rw [if_neg h]
      exact arrFreeV_sanitizeValue v

end

/-- Claim C10. `sanitizeInputs` recurses into an array value under a
non-sensitive key as if it were a mapping, returning a string-keyed object
with index keys `"0"`, `"1"`, ... — so the sanitized (hence hashed and
stored) entry preserves no array-typed input value at any depth — while a
value under a sensitive key is replaced wholesale by `"[REDACTED]"` without
recursion; `log()` stores exactly the sanitized inputs. -/
theorem c10_sanitize_arrays (k : String) (v : JValue) (es : JArr) (fields rest : JObj) :
    (isSensitiveKey k = false →
      sanitizeInputs (JObj.cons k (JValue.arr es) rest) =
        JObj.cons k (JValue.obj (sanitizeArr 0 es)) (sanitizeInputs rest)) ∧
    JObj.keys (sanitizeArr 0 es) = (List.range' 0 (jarrLen es)).map (fun i => toString i) ∧
    (isSensitiveKey k = true →
      sanitizeInputs (JObj.cons k v rest) =
        JObj.cons k (JValue.str "[REDACTED]") (sanitizeInputs rest)) ∧
    arrFreeO (sanitizeInputs fields) = true ∧
    (∀ (lg : AuditLogger) (storage : List AuditEntry) (options : AuditEntryOptions)
      (genId genTs : String),
      ((AuditLogger.log lg storage options genId genTs).1).inputs =
        sanitizeInputs options.inputs) := by
  refine ⟨?_, sanitizeArr_keys es 0, ?_, arrFreeO_sanitizeInputs fields, ?_⟩
  · intro h
    show JObj.cons k (if isSensitiveKey k then .str "[REDACTED]"
      else sanitizeValue (JValue.arr es)) (sanitizeInputs rest) = _
    rw [h]
    rfl
  · intro h
    show JObj.cons k (if isSensitiveKey k then .str "[REDACTED]"
      else sanitizeValue v) (sanitizeInputs rest) = _
    rw [h]
    rfl
  · intro lg storage options genId genTs
    rfl

/-- Claim C10, witness: a non-sensitive array value becomes an index-keyed
object; a sensitive key is redacted wholesale. -/
theorem c10_witness :
    sanitizeInputs (JObj.cons "list" (JValue.arr (JArr.cons (JValue.num 1) JArr.nil))
      JObj.nil) =
      JObj.cons "list" (JValue.obj (sanitizeArr 0 (JArr.cons (JValue.num 1) JArr.nil)))
        JObj.nil ∧
    sanitizeInputs (JObj.cons "ssn" (JValue.str "123-45-6789") JObj.nil) =
      JObj.cons "ssn" (JValue.str "[REDACTED]") JObj.nil := by
  constructor
  · exact (c10_sanitize_arrays "list" JValue.null (JArr.cons (JValue.num 1) JArr.nil)
      JObj.nil JObj.nil).1 (by decide)
  · exact (c10_sanitize_arrays "ssn" (JValue.str "123-45-6789") JArr.nil
      JObj.nil JObj.nil).2.2.1 (by decide)
